/-
Verification of the cognitive-modules repository: a shallow embedding of
the module resolver, loader, installer, registry client and execution
pipeline (src/src/cognitive/{registry,runner,cli}.py and
src/runtime/{run_module,validate_module,llm_stub}.py), together with
theorems settling the specification claims.

Modelling conventions:
* filesystem paths are lists of components (`Path`); the observable
  filesystem is a read-only structure `FS` of directory listings, file
  contents and directory flags;
* JSON/YAML documents are values of the inductive `Json` type, with
  numbers as exact rationals (the code only compares and copies them);
* external collaborators (the `jsonschema` engine, `yaml`/`json`
  (de)serialisers, the LLM provider, the network, `git`) are parameters,
  exactly as the spec declares them external interfaces;
* text manipulation from the Python code (`strip`, `split`,
  `startswith`, slicing) is embedded character-by-character on
  `List Char`.
-/
import Mathlib

set_option autoImplicit false

namespace Spec2Proof

/-! ## Characters and Python-style text utilities -/

/-- The backtick character (written via its code point). -/
def btick : Char := Char.ofNat 96

/-- The double-quote character. -/
def dquote : Char := Char.ofNat 34

/-- Whitespace as stripped by Python's `str.strip()` (ASCII part). -/
def isPySpace (c : Char) : Bool :=
  c = ' ' || c = '\t' || c = '\n' || c = '\r' || c = Char.ofNat 11 || c = Char.ofNat 12

/-- Python `str.strip()` on a character list. -/
def pyStrip (cs : List Char) : List Char :=
  ((cs.dropWhile isPySpace).reverse.dropWhile isPySpace).reverse

/-- Python `str.split(sep)` for a one-character separator: always returns
at least one (possibly empty) field. -/
def splitOnChar (sep : Char) : List Char → List (List Char)
  | [] => [[]]
  | c :: rest =>
    if c = sep then [] :: splitOnChar sep rest
    else
      match splitOnChar sep rest with
      | [] => [[c]]
      | l :: ls => (c :: l) :: ls

/-- Python `"\n".join(lines)`. -/
def joinLines : List (List Char) → List Char
  | [] => []
  | [l] => l
  | l :: ls => l ++ '\n' :: joinLines ls

/-- First occurrence of substring `sep`: returns the part before and the
part after the separator. -/
def splitSubOnce (sep : List Char) : List Char → Option (List Char × List Char)
  | [] => none
  | c :: rest =>
    if sep.isPrefixOf (c :: rest) then some ([], (c :: rest).drop sep.length)
    else (splitSubOnce sep rest).map (fun p => (c :: p.1, p.2))

/-- Python `s.split(sep, 2)` for a multi-character separator: at most
three fields. -/
def pySplitMax2 (sep cs : List Char) : List (List Char) :=
  match splitSubOnce sep cs with
  | none => [cs]
  | some (a, r) =>
    match splitSubOnce sep r with
    | none => [a, r]
    | some (b, r2) => [a, b, r2]

/-- Python `s.split(sep, 2)` for a one-character separator. -/
def splitOnCharMax2 (sep : Char) (cs : List Char) : List (List Char) :=
  pySplitMax2 [sep] cs

/-- Python `sub in s` (substring containment). -/
def hasSub (sub : List Char) : List Char → Bool
  | [] => sub.isPrefixOf ([] : List Char)
  | c :: rest => sub.isPrefixOf (c :: rest) || hasSub sub rest

/-- String-level `startswith`. -/
def pyStartsWith (p s : String) : Bool := p.toList.isPrefixOf s.toList

/-- Python `s.lower()` (ASCII). -/
def pyLower (s : String) : String := String.mk (s.toList.map Char.toLower)

/-! ## JSON documents

Documents produced by the external `json` / `yaml` parsers.  Numbers are
modelled as exact rationals: the embedded code only ever compares and
copies them, and the decimal literals appearing in the claims (0.5, 0.6,
0.9) compare identically as rationals and as IEEE doubles. -/

inductive Json where
  | null : Json
  | bool : Bool → Json
  | num : ℚ → Json
  | str : String → Json
  | arr : List Json → Json
  | obj : List (String × Json) → Json

/-- Dictionary lookup (`d[k]` / `k in d`) on an association list,
first binding wins, as in a Python `dict` built by insertion. -/
def alistLookup {α : Type} (kvs : List (String × α)) (k : String) : Option α :=
  (kvs.find? (fun p => p.1 = k)).map (·.2)

/-- Python `d.get(k, default)` for an object; `none` when the receiver is
not a dict (where CPython would raise `AttributeError`). -/
def Json.pyGet (j : Json) (k : String) (default : Json) : Option Json :=
  match j with
  | .obj kvs => some ((alistLookup kvs k).getD default)
  | _ => none

/-- Python key membership `k in d` for an object (`false` on non-dicts;
the code under verification only reaches this with dict outputs). -/
def Json.hasKey (j : Json) (k : String) : Bool :=
  match j with
  | .obj kvs => (alistLookup kvs k).isSome
  | _ => false

/-- Key lookup on an object. -/
def Json.getKey (j : Json) (k : String) : Option Json :=
  match j with
  | .obj kvs => alistLookup kvs k
  | _ => none

/-- Python truthiness: the falsy values relevant to `Json`. -/
def Json.pyFalsy : Json → Bool
  | .null => true
  | .bool b => !b
  | .num q => q = 0
  | .str s => s = ""
  | .arr xs => xs.isEmpty
  | .obj kvs => kvs.isEmpty

/-! ## Paths and the filesystem -/

/-- A filesystem path, as its list of components (all paths the code
manipulates are absolute). -/
abbrev Path := List String

/-- `str(path)` for an absolute path. -/
def pathToString (p : Path) : String := "/" ++ String.intercalate "/" p

/-- Last path component (`path.name` in `pathlib`). -/
def lastComp (p : Path) : String := p.getLast?.getD ""

/-- Normalise path components: drop `.` and empty components, resolve
`..` against the accumulated prefix (as `Path.resolve()` does). -/
def normComps (comps : List String) : Path :=
  comps.foldl
    (fun acc c =>
      if c = "" || c = "." then acc
      else if c = ".." then acc.dropLast
      else acc ++ [c])
    []

/-- Split a string into path components. -/
def pathComps (s : String) : List String :=
  ((splitOnChar '/' s.toList).map String.mk).filter (fun c => c ≠ "")

/-- `Path(s).resolve()` against a current working directory. -/
def resolvePath (cwd : Path) (s : String) : Path :=
  if pyStartsWith "/" s then normComps (pathComps s)
  else normComps (cwd ++ pathComps s)

/-- The read-only filesystem the process observes. -/
structure FS where
  /-- `iterdir` listing of a directory. -/
  children : Path → List String
  /-- `is_dir()`. -/
  isDir : Path → Bool
  /-- contents of a regular file, `none` when absent. -/
  file : Path → Option String

/-- `Path.exists()`: a directory or a regular file. -/
def FS.pexists (fs : FS) (p : Path) : Bool :=
  fs.isDir p || (fs.file p).isSome

/-- Build a concrete filesystem from explicit listings (used by the
concrete-input theorems). -/
def mkFS (dirs : List (Path × List String)) (files : List (Path × String)) : FS where
  children := fun p => ((dirs.find? (fun d => d.1 = p)).map (·.2)).getD []
  isDir := fun p => (dirs.find? (fun d => d.1 = p)).isSome
  file := fun p => (files.find? (fun f => f.1 = p)).map (·.2)

/-! ## Module resolver (src/src/cognitive/registry.py, search paths) -/

/-- The fixed search paths of `registry.SEARCH_PATHS`, computed from the
process' working directory and home directory. -/
def SEARCH_PATHS (cwd home : Path) : List Path :=
  [cwd ++ ["cognitive", "modules"],
   home ++ [".cognitive", "modules"],
   ["usr", "local", "share", "cognitive", "modules"]]

/-- `registry.USER_MODULES_DIR`. -/
def USER_MODULES_DIR (home : Path) : Path := home ++ [".cognitive", "modules"]

/-- `registry.get_search_paths`: starts from `SEARCH_PATHS` and, for each
custom path from `COGNITIVE_MODULES_PATH` in turn, inserts it at
position 0. -/
def get_search_paths (cwd home : Path) (custom : List Path) : List Path :=
  custom.foldl (fun paths p => p :: paths) (SEARCH_PATHS cwd home)

/-- `registry._is_valid_module`: any of the three descriptor files is
present. -/
def is_valid_module (fs : FS) (p : Path) : Bool :=
  fs.pexists (p ++ ["module.yaml"]) ||
  fs.pexists (p ++ ["MODULE.md"]) ||
  fs.pexists (p ++ ["module.md"])

/-- `registry.find_module`: first search path whose `name` subdirectory
exists and carries one of the three descriptor files. -/
def find_module (fs : FS) (cwd home : Path) (custom : List Path) (name : String) :
    Option Path :=
  (get_search_paths cwd home custom).findSome? fun base =>
    let module_path := base ++ [name]
    if fs.pexists module_path && is_valid_module fs module_path then some module_path
    else none

/-- Format detection used by `registry.list_modules`. -/
def detectFormat (fs : FS) (d : Path) : Option String :=
  if fs.pexists (d ++ ["module.yaml"]) then some "v2"
  else if fs.pexists (d ++ ["MODULE.md"]) then some "v1"
  else if fs.pexists (d ++ ["module.md"]) then some "v0"
  else none

/-- One row of `registry.list_modules`' result. -/
structure ModEntry where
  name : String
  path : Path
  location : String
  format : String
  deriving DecidableEq

/-- Processing of one `iterdir` child inside `registry.list_modules`. -/
def processChild (fs : FS) (cwd : Path) (base : Path)
    (acc : List ModEntry × List String) (c : String) : List ModEntry × List String :=
  if ¬ fs.isDir (base ++ [c]) then acc
  else if c ∈ acc.2 then acc
  else
    match detectFormat fs (base ++ [c]) with
    | none => acc
    | some fmt =>
      (acc.1 ++ [{ name := c, path := base ++ [c],
                   location := if base = cwd ++ ["cognitive", "modules"]
                               then "local" else "global",
                   format := fmt }],
       c :: acc.2)

/-- Processing of one search path inside `registry.list_modules`. -/
def processBase (fs : FS) (cwd : Path)
    (acc : List ModEntry × List String) (base : Path) : List ModEntry × List String :=
  if ¬ fs.pexists base then acc
  else (fs.children base).foldl (processChild fs cwd base) acc

/-- `registry.list_modules`: all modules across the search paths,
deduplicated by name via the `seen` set. -/
def list_modules (fs : FS) (cwd home : Path) (custom : List Path) : List ModEntry :=
  ((get_search_paths cwd home custom).foldl (processBase fs cwd) ([], [])).1

/-- `registry.uninstall_module` on the user-global store: removes the
directory when present.  The store is modelled by the list of module
names installed under `USER_MODULES_DIR`. -/
def uninstall_module (mods : List String) (name : String) : List String × Bool :=
  if name ∈ mods then (mods.erase name, true) else (mods, false)

/-! ## Registry client (src/src/cognitive/registry.py, fetch/search) -/

/-- State of the local registry cache file
(`~/.cognitive/registry-cache.json`): absent, present but unreadable or
unparsable, or present with a parsed document. -/
inductive CacheFile where
  | absent : CacheFile
  | corrupt : CacheFile
  | content : Json → CacheFile

/-- A network/parse failure of the index fetch: the two exception classes
caught by `fetch_registry` (`URLError`, `json.JSONDecodeError`). -/
inductive FetchErr where
  | urlError : String → FetchErr
  | jsonDecodeError : String → Nat → Nat → Nat → FetchErr

/-- `str(e)` for the two caught exception classes, following CPython's
renderings (`"<urlopen error {reason}>"` and
`"{msg}: line {l} column {c} (char {p})"`). -/
def FetchErr.message : FetchErr → String
  | .urlError reason => "<urlopen error " ++ reason ++ ">"
  | .jsonDecodeError msg l c p =>
    msg ++ ": line " ++ toString l ++ " column " ++ toString c ++
      " (char " ++ toString p ++ ")"

/-- `registry.DEFAULT_REGISTRY_URL`. -/
def DEFAULT_REGISTRY_URL : String :=
  "https://raw.githubusercontent.com/ziel-io/cognitive-modules/main/cognitive-registry.json"

/-- `registry.fetch_registry`: cache-first, then network; on a network or
parse failure returns the degraded index instead of raising.  `net` is
the external network (URL to fetched-and-parsed document), `urlArg` the
optional explicit URL, `envUrl` the `COGNITIVE_REGISTRY_URL` variable.
Returns the resulting document and the cache state afterwards. -/
def fetch_registry (net : String → Except FetchErr Json) (cache : CacheFile)
    (urlArg : Option String) (envUrl : Option String) (use_cache : Bool) :
    Json × CacheFile :=
  let url := urlArg.getD (envUrl.getD DEFAULT_REGISTRY_URL)
  match use_cache, cache with
  | true, .content j => (j, cache)
  | _, _ =>
    match net url with
    | .ok data => (data, .content data)
    | .error e =>
      (.obj [("modules", .obj []), ("error", .str e.message)], cache)

/-- The match loop of `registry.search_registry` over a fetched index. -/
def searchIndex (registry : Json) (query : String) : List Json :=
  let modsObj : Json := (registry.pyGet "modules" (.obj [])).getD (.obj [])
  let ql := pyLower query
  match modsObj with
  | .obj kvs =>
    (kvs.filter (fun (p : String × Json) =>
        let descr : String :=
          match (p.2.pyGet "description" (.str "")).getD (.str "") with
          | .str s => s
          | _ => ""
        hasSub ql.toList (pyLower p.1).toList ||
        hasSub ql.toList (pyLower descr).toList)).map
      (fun p =>
        let fld := fun (k : String) =>
          match (p.2.pyGet k (.str "")).getD (.str "") with
          | .str s => Json.str s
          | j => j
        Json.obj [("name", .str p.1), ("description", fld "description"),
                  ("source", fld "source"), ("version", fld "version")])
  | _ => []

/-- `registry.search_registry`: fetch (with defaults) then filter. -/
def search_registry (net : String → Except FetchErr Json) (cache : CacheFile)
    (envUrl : Option String) (query : String) : List Json :=
  searchIndex (fetch_registry net cache none envUrl true).1 query

/-! ## Module installer (src/src/cognitive/registry.py) and the
install command (src/src/cognitive/cli.py) -/

/-- One entry of `~/.cognitive/installed.json`, as written by
`registry._record_module_source`. -/
structure ManEntry where
  source : String
  github_url : Option String
  module_path : Option String
  installed_at : String
  deriving DecidableEq

/-- The manifest file: absent, unreadable/unparsable, or parsed. -/
inductive ManifestFile where
  | absent : ManifestFile
  | corrupt : ManifestFile
  | content : List (String × ManEntry) → ManifestFile

/-- The dict `_record_module_source` starts from: `{}` when the file is
absent or its load raised (bare `except: pass`). -/
def manifestEntries : ManifestFile → List (String × ManEntry)
  | .content m => m
  | _ => []

/-- `manifest[name] = entry` on an association list (same lookup
semantics as the Python dict update). -/
def setEntry (m : List (String × ManEntry)) (n : String) (e : ManEntry) :
    List (String × ManEntry) :=
  m.filter (fun p => p.1 ≠ n) ++ [(n, e)]

/-- `registry._record_module_source`: read-modify-write of the manifest.
Note the recorded fields: `source` is the string form of the path the
installer copied from, and `installed_at` is the string form of the
install location. -/
def record_module_source (home : Path) (mf : ManifestFile) (name source : String)
    (github_url module_path : Option String) : ManifestFile :=
  .content (setEntry (manifestEntries mf) name
    { source := source, github_url := github_url, module_path := module_path,
      installed_at := pathToString (home ++ [".cognitive", "modules", name]) })

/-- The mutable on-disk state an install touches: the names under the
user-global store `USER_MODULES_DIR`, plus the manifest file. -/
structure Store where
  mods : List String
  manifest : ManifestFile

/-- Everything external the installer consults. -/
structure InstallEnv where
  fs : FS
  cwd : Path
  home : Path
  net : String → Except FetchErr Json
  cacheFile : CacheFile
  envUrl : Option String
  /-- `git clone --depth 1 url`: on success, the path of the fresh clone. -/
  gitClone : String → Except String Path
  /-- `validator.validate_module` (module not under src/): its result
  triple `(is_valid, errors, warnings)` for a module directory. -/
  validator : String → Bool × List String × List String

/-- `registry.install_from_local`: resolve, check validity, replace the
target directory in full, record the manifest entry. -/
def install_from_local (env : InstallEnv) (st : Store) (sourceRaw : String)
    (name : Option String) : Except String (Path × Store) :=
  let source := resolvePath env.cwd sourceRaw
  if ¬ env.fs.pexists source then
    .error ("Source not found: " ++ pathToString source)
  else if ¬ is_valid_module env.fs source then
    .error ("Not a valid module (missing module.yaml, MODULE.md, or module.md): " ++
      pathToString source)
  else
    let module_name := name.getD (lastComp source)
    let target := USER_MODULES_DIR env.home ++ [module_name]
    .ok (target,
      { mods := module_name :: st.mods.erase module_name,
        manifest := record_module_source env.home st.manifest module_name
          (pathToString source) none none })

/-- The clone-then-install tail of `registry.install_from_git`. -/
def cloneAndInstall (env : InstallEnv) (st : Store) (url : String)
    (subdir : Option String) (name : Option String) : Except String (Path × Store) :=
  match env.gitClone url with
  | .error e => .error ("Git clone failed: " ++ e)
  | .ok repoPath =>
    let source := repoPath ++
      (match subdir with
       | some sd => pathComps sd
       | none => [])
    if ¬ env.fs.pexists source then
      .error ("Subdir not found: " ++ subdir.getD "")
    else
      let module_name := name.getD (lastComp source)
      install_from_local env st (pathToString source) (some module_name)

/-- `registry.install_from_git`: parse the `github:` / `git+` source
forms, shallow-clone, then install from the cloned directory. -/
def install_from_git (env : InstallEnv) (st : Store) (url0 : String)
    (subdir0 : Option String) (name : Option String) : Except String (Path × Store) :=
  if pyStartsWith "github:" url0 then
    match splitOnCharMax2 '/' (url0.toList.drop 7) with
    | org :: repo :: restParts =>
      let subdir := match restParts with
        | [sd] => some (String.mk sd)
        | _ => subdir0
      cloneAndInstall env st
        ("https://github.com/" ++ String.mk org ++ "/" ++ String.mk repo ++ ".git")
        subdir name
    | _ => .error ("Invalid github URL: " ++ url0)
  else if pyStartsWith "git+" url0 then
    let u := url0.toList.drop 4
    match splitSubOnce ['#'] u with
    | some (base, fragment) =>
      let subdir := (splitOnChar '&' fragment).foldl
        (fun acc part =>
          if ("subdir=".toList).isPrefixOf part then some (String.mk (part.drop 7))
          else acc)
        subdir0
      cloneAndInstall env st (String.mk base) subdir name
    | none => cloneAndInstall env st (String.mk u) subdir0 name
  else
    cloneAndInstall env st url0 subdir0 name

/-- The registry-resolution step of `registry.install_from_registry`:
fetch the index and map the module name to its source URI. -/
def install_from_registry_step (env : InstallEnv) (module_name : String) :
    Except String String :=
  let registry := (fetch_registry env.net env.cacheFile none env.envUrl true).1
  match registry.pyGet "modules" (.obj []) with
  | none => .error "AttributeError: registry index is not a dict"
  | some mods =>
    if ¬ mods.hasKey module_name then
      .error ("Module not found in registry: " ++ module_name)
    else
      match mods.getKey module_name with
      | none => .error ("Module not found in registry: " ++ module_name)
      | some info =>
        match info.pyGet "source" .null with
        | none => .error "AttributeError: registry entry is not a dict"
        | some src =>
          if src.pyFalsy then .error ("No source defined for module: " ++ module_name)
          else
            match src with
            | .str s => .ok s
            | _ => .error "TypeError: registry source is not a string"

/-- `registry.install_module`: dispatch on the source-URI prefix.  The
`registry:` path re-enters `install_module` on the resolved URI; the
`fuel` argument bounds that recursion (Python recurses unboundedly). -/
def install_module (env : InstallEnv) : Nat → Store → String → Option String →
    Except String (Path × Store)
  | 0, _, _, _ => .error "recursion limit exceeded"
  | fuel + 1, st, source, name =>
    if pyStartsWith "local:" source then
      install_from_local env st (String.mk (source.toList.drop 6)) name
    else if pyStartsWith "registry:" source then
      let mn := String.mk (source.toList.drop 9)
      match install_from_registry_step env mn with
      | .error e => .error e
      | .ok src => install_module env fuel st src (some mn)
    else if pyStartsWith "github:" source || pyStartsWith "git+" source then
      install_from_git env st source none name
    else if pyStartsWith "/" source || pyStartsWith "./" source ||
        pyStartsWith ".." source then
      install_from_local env st source name
    else if pyStartsWith "https://github.com" source then
      install_from_git env st source none name
    else
      match
        ((match install_from_registry_step env source with
          | .error e => .error e
          | .ok src => install_module env fuel st src (some source)) :
          Except String (Path × Store)) with
      | .ok r => .ok r
      | .error _ => install_from_local env st source name

/-- `cli.install_cmd`: install, validate the installed module, and on a
validation failure uninstall it again before surfacing the error. -/
def install_cmd (env : InstallEnv) (fuel : Nat) (st : Store) (source : String)
    (name : Option String) : Except String Path × Store :=
  match install_module env fuel st source name with
  | .error e => (.error ("Install failed: " ++ e), st)
  | .ok (target, st') =>
    let v := env.validator (pathToString target)
    if v.1 then (.ok target, st')
    else
      (.error "Installed module failed validation",
       { st' with mods := (uninstall_module st'.mods (lastComp target)).1 })

/-! ## Module loader and execution pipeline (src/src/cognitive/runner.py) -/

/-- Outcome of the external `jsonschema` engine on one
(instance, schema) pair. -/
inductive EngineOut where
  | ok : EngineOut
  | invalid : String → List String → EngineOut
  | schemaErr : String → EngineOut

/-- External collaborators of the loader and pipeline: the filesystem,
the process directories, the `COGNITIVE_MODULES_PATH` paths, the
`yaml`/`json` libraries, the `jsonschema` engine and the provider layer
(`providers.call_llm` / `llm_stub.call_llm`). -/
structure RunEnv where
  fs : FS
  cwd : Path
  home : Path
  custom : List Path
  yamlParse : String → Except String Json
  jsonLoads : String → Except String Json
  yamlDump : Json → String
  jsonDumps : Json → String
  engine : Json → Json → EngineOut
  llm : String → Option String → Except String String

/-- Errors a module load can raise. -/
inductive LoadErr where
  | notFound : String → LoadErr
  | fileMissing : String → LoadErr
  | yamlError : String → LoadErr
  | jsonError : String → String → LoadErr
  | valueError : String → LoadErr
  deriving DecidableEq

/-- The in-memory module record returned by `load_module`. -/
structure Module where
  name : String
  path : Path
  metadata : Json
  input_schema : Json
  output_schema : Json
  constraints : Json
  prompt : String

/-- The single-quote character, for Python `repr` renderings. -/
def sq : String := String.mk [Char.ofNat 39]

/-- Python `str(list_of_strings)`. -/
def pyListRepr (xs : List String) : String :=
  "[" ++ String.intercalate ", " (xs.map (fun s => sq ++ s ++ sq)) ++ "]"

/-- `runner.validate_data`: wrap the engine outcome into a list of error
strings. -/
def validate_data (engine : Json → Json → EngineOut) (data schema : Json)
    (label : String) : List String :=
  match engine data schema with
  | .ok => []
  | .invalid msg path =>
    [label ++ " validation error: " ++ msg ++ " at " ++ pyListRepr path]
  | .schemaErr msg => ["Schema error: " ++ msg]

/-- The path-or-name resolution at the top of `runner.load_module`: an
existing directory is used as the module directly; otherwise the name is
resolved through `find_module`. -/
def resolveModuleDir (env : RunEnv) (arg : String) : Except LoadErr Path :=
  let p := resolvePath env.cwd arg
  if env.fs.pexists p && env.fs.isDir p then .ok p
  else
    match find_module env.fs env.cwd env.home env.custom arg with
    | some mp => .ok mp
    | none => .error (.notFound arg)

/-- The schema/constraints/prompt file loads shared verbatim by
`runner.load_module` and `runtime.load_module`. -/
def loadFiles (env : RunEnv) (module_path : Path) (metadata : Json)
    (name : String) : Except LoadErr Module :=
  match env.fs.file (module_path ++ ["input.schema.json"]) with
  | none => .error (.fileMissing "input.schema.json")
  | some s1 =>
    match env.jsonLoads s1 with
    | .error m => .error (.jsonError "input.schema.json" m)
    | .ok input_schema =>
      match env.fs.file (module_path ++ ["output.schema.json"]) with
      | none => .error (.fileMissing "output.schema.json")
      | some s2 =>
        match env.jsonLoads s2 with
        | .error m => .error (.jsonError "output.schema.json" m)
        | .ok output_schema =>
          match env.fs.file (module_path ++ ["constraints.yaml"]) with
          | none => .error (.fileMissing "constraints.yaml")
          | some s3 =>
            match env.yamlParse s3 with
            | .error m => .error (.yamlError m)
            | .ok constraints =>
              match env.fs.file (module_path ++ ["prompt.txt"]) with
              | none => .error (.fileMissing "prompt.txt")
              | some prompt =>
                .ok { name := name, path := module_path, metadata := metadata,
                      input_schema := input_schema, output_schema := output_schema,
                      constraints := constraints, prompt := prompt }

/-- The body of `runner.load_module` once the module directory is known:
note that it opens `module.md` unconditionally, whatever descriptor
format the directory actually uses. -/
def loadFromDir (env : RunEnv) (module_path : Path) : Except LoadErr Module :=
  match env.fs.file (module_path ++ ["module.md"]) with
  | none => .error (.fileMissing "module.md")
  | some content =>
    let metaE : Except LoadErr Json :=
      if pyStartsWith "---" content then
        let parts := pySplitMax2 "---".toList content.toList
        if parts.length ≥ 3 then
          match env.yamlParse (String.mk (parts[1]?.getD [])) with
          | .error m => .error (.yamlError m)
          | .ok j => .ok (if j.pyFalsy then .obj [] else j)
        else .ok (.obj [])
      else .ok (.obj [])
    match metaE with
    | .error e => .error e
    | .ok metadata => loadFiles env module_path metadata (lastComp module_path)

/-- `runner.load_module`. -/
def load_module (env : RunEnv) (arg : String) : Except LoadErr Module :=
  match resolveModuleDir env arg with
  | .error e => .error e
  | .ok mp => loadFromDir env mp

/-- `runner.build_prompt`. -/
def build_prompt (env : RunEnv) (m : Module) (input : Json) : String :=
  m.prompt ++ "\n\n## Constraints\n" ++ env.yamlDump m.constraints ++
  "\n\n## Input\n" ++ "```json\n" ++ env.jsonDumps input ++ "\n```\n" ++
  "\n## Instructions\n" ++
  "Analyze the input and generate output matching the required schema." ++
  "Return ONLY valid JSON. Do not include any text before or after the JSON."

/-- The fence marker. -/
def fence3 : List Char := "```".toList

/-- The fenced-code-block stripping of `runner.parse_llm_response`:
when the trimmed text starts with a fence, drop the opening fence line
and cut at the first line that strips to a bare fence (falling back to
the last line when none matches). -/
def stripFencedBlock (text : List Char) : List Char :=
  if fence3.isPrefixOf text then
    let lines := splitOnChar '\n' text
    let stop :=
      match (lines.drop 1).findIdx? (fun l => pyStrip l = fence3) with
      | some k => k + 1
      | none => lines.length - 1
    joinLines ((lines.drop 1).take (stop - 1))
  else text

/-- The text `runner.parse_llm_response` hands to `json.loads`. -/
def parseLlmResponseText (resp : List Char) : List Char :=
  stripFencedBlock (pyStrip resp)

/-- `runner.parse_llm_response`. -/
def parse_llm_response (jsonLoads : String → Except String Json) (response : String) :
    Except String Json :=
  jsonLoads (String.mk (parseLlmResponseText response.toList))

/-- Observable pipeline events; `invoke` is the provider call. -/
inductive Ev where
  | validateInput : Ev
  | invoke : String → Ev
  | parsed : Ev
  | validateOutput : Ev
  | checkConfidence : Ev
  deriving DecidableEq

/-- Terminal pipeline errors. -/
inductive RunErr where
  | loadError : LoadErr → RunErr
  | inputValidation : List String → RunErr
  | providerError : String → RunErr
  | parseError : String → RunErr
  | outputValidation : List String → RunErr
  | confidenceError : String → RunErr
  deriving DecidableEq

/-- The invoke/parse/validate-output tail of `runner.run_module`. -/
def runTail (env : RunEnv) (m : Module) (input : Json) (validate_output : Bool)
    (model : Option String) (evs : List Ev) : List Ev × Except RunErr Json :=
  let full_prompt := build_prompt env m input
  match env.llm full_prompt model with
  | .error e => (evs ++ [.invoke full_prompt], .error (.providerError e))
  | .ok response =>
    match parse_llm_response env.jsonLoads response with
    | .error e => (evs ++ [.invoke full_prompt], .error (.parseError e))
    | .ok output =>
      if validate_output then
        match validate_data env.engine output m.output_schema "Output" with
        | [] => (evs ++ [.invoke full_prompt, .parsed, .validateOutput], .ok output)
        | errs =>
          (evs ++ [.invoke full_prompt, .parsed], .error (.outputValidation errs))
      else (evs ++ [.invoke full_prompt, .parsed], .ok output)

/-- `runner.run_module`: load, optionally validate input, build prompt,
invoke, parse, optionally validate output, return the output document.
The event list records which observable steps ran. -/
def run_module (env : RunEnv) (arg : String) (input : Json)
    (validate_input validate_output : Bool) (model : Option String) :
    List Ev × Except RunErr Json :=
  match load_module env arg with
  | .error e => ([], .error (.loadError e))
  | .ok m =>
    if validate_input then
      match validate_data env.engine input m.input_schema "Input" with
      | [] => runTail env m input validate_output model [.validateInput]
      | errs => ([.validateInput], .error (.inputValidation errs))
    else runTail env m input validate_output model []

/-! ## Reference runtime pipeline (src/runtime/run_module.py) -/

/-- `run_module.load_module` of the runtime scripts: resolves the module
under `<repo>/cognitive/modules/<name>` and parses the `module.md`
frontmatter by exact 3-way unpacking. -/
def runtime_load_module (env : RunEnv) (baseDir : Path) (module_name : String) :
    Except LoadErr Module :=
  let module_path := baseDir ++ ["cognitive", "modules", module_name]
  if ¬ env.fs.pexists module_path then .error (.notFound module_name)
  else
    match env.fs.file (module_path ++ ["module.md"]) with
    | none => .error (.fileMissing "module.md")
    | some content =>
      let metaE : Except LoadErr Json :=
        if pyStartsWith "---" content then
          match pySplitMax2 "---".toList content.toList with
          | [_, frontmatter, _] =>
            match env.yamlParse (String.mk frontmatter) with
            | .error m => .error (.yamlError m)
            | .ok j => .ok j
          | _ => .error (.valueError "not enough values to unpack")
        else .ok (.obj [])
      match metaE with
      | .error e => .error e
      | .ok metadata => loadFiles env module_path metadata module_name

/-- `run_module.build_llm_prompt` (runtime variant of the prompt). -/
def runtime_build_prompt (env : RunEnv) (m : Module) (input : Json) : String :=
  m.prompt ++ "\n\n## Constraints\n" ++ env.yamlDump m.constraints ++
  "\n\n## Input\n" ++ "```json\n" ++ env.jsonDumps input ++ "\n```\n" ++
  "\n## Instructions\n" ++
  "Analyze the input and generate a complete UI specification." ++
  "Return ONLY valid JSON matching the output schema." ++
  "Do not include any text before or after the JSON."

/-- The runtime markdown-fence handling: when the trimmed response starts
with a fence it simply drops the first and last lines. -/
def runtimeParseText (resp : List Char) : List Char :=
  let text := pyStrip resp
  if fence3.isPrefixOf text then
    let lines := splitOnChar '\n' text
    joinLines ((lines.drop 1).take (lines.length - 2))
  else text

/-- The literal `0.6` default of the confidence check, written as an
explicit rational so that concrete runs evaluate. -/
def defaultMinViable : ℚ := ⟨3, 5, by norm_num, by norm_num⟩

/-- The confidence comparison of the runtime pipeline:
`module["constraints"].get("confidence_thresholds", {})
  .get("minimum_viable", 0.6)` compared with the output's confidence. -/
def confCompare (constraints : Json) (c : Json) : Except String Bool :=
  match constraints with
  | .obj kvs =>
    match (alistLookup kvs "confidence_thresholds").getD (.obj []) with
    | .obj ts =>
      match c, (alistLookup ts "minimum_viable").getD (.num defaultMinViable) with
      | .num qc, .num qm => .ok (decide (qc < qm))
      | _, _ => .error "TypeError: confidence comparison"
    | _ => .error "AttributeError: thresholds is not a dict"
  | _ => .error "AttributeError: constraints is not a dict"

/-- The effective `minimum_viable` threshold the runtime pipeline
compares against (0.6 when unspecified). -/
def effMinViable (constraints : Json) : Except String ℚ :=
  match constraints with
  | .obj kvs =>
    match (alistLookup kvs "confidence_thresholds").getD (.obj []) with
    | .obj ts =>
      match (alistLookup ts "minimum_viable").getD (.num defaultMinViable) with
      | .num q => .ok q
      | _ => .error "nonnumeric minimum_viable"
    | _ => .error "AttributeError: thresholds is not a dict"
  | _ => .error "AttributeError: constraints is not a dict"

/-- The final confidence step of `runtime.run_module`: when the output
carries a `confidence` field it is compared against the threshold and a
below-threshold value yields a low-confidence warning flag (the result is
returned either way). -/
def runtimeConfidenceStep (m : Module) (out : Json) (evs : List Ev) :
    List Ev × Except RunErr (Json × Bool) :=
  match out.getKey "confidence" with
  | none => (evs, .ok (out, false))
  | some c =>
    match confCompare m.constraints c with
    | .error e => (evs ++ [.checkConfidence], .error (.confidenceError e))
    | .ok warn => (evs ++ [.checkConfidence], .ok (out, warn))

/-- The invoke/parse/validate/confidence tail of `runtime.run_module`. -/
def runtimeTail (env : RunEnv) (m : Module) (input : Json) (validate : Bool)
    (evs : List Ev) : List Ev × Except RunErr (Json × Bool) :=
  let full_prompt := runtime_build_prompt env m input
  match env.llm full_prompt none with
  | .error e => (evs ++ [.invoke full_prompt], .error (.providerError e))
  | .ok response =>
    match env.jsonLoads (String.mk (runtimeParseText response.toList)) with
    | .error e =>
      (evs ++ [.invoke full_prompt],
       .error (.parseError (e ++ " preview: " ++ String.mk (response.toList.take 200))))
    | .ok output =>
      if validate then
        match validate_data env.engine output m.output_schema "Output" with
        | [] =>
          runtimeConfidenceStep m output (evs ++ [.invoke full_prompt, .parsed, .validateOutput])
        | errs =>
          (evs ++ [.invoke full_prompt, .parsed], .error (.outputValidation errs))
      else runtimeConfidenceStep m output (evs ++ [.invoke full_prompt, .parsed])

/-- `runtime.run_module`: load, optionally validate input and output,
invoke, parse, check confidence; returns the output document together
with the low-confidence warning flag. -/
def runtime_run_module (env : RunEnv) (baseDir : Path) (module_name : String)
    (input : Json) (validate : Bool) : List Ev × Except RunErr (Json × Bool) :=
  match runtime_load_module env baseDir module_name with
  | .error e => ([], .error (.loadError e))
  | .ok m =>
    if validate then
      match validate_data env.engine input m.input_schema "Input" with
      | [] => runtimeTail env m input true [.validateInput]
      | errs => ([.validateInput], .error (.inputValidation errs))
    else runtimeTail env m input false []

/-! ## Claim C9: an existing local directory shadows name resolution -/

/-- C9: for every argument string naming an existing directory,
`load_module` uses that directory directly as the module: the resolution
result is that directory, the rest of the load proceeds from it, and the
result does not depend on the resolver's search paths (so a local
directory shadows an installed module of the same name). -/
theorem c9_local_dir_shadows_resolver (env : RunEnv) (arg : String)
    (h1 : env.fs.pexists (resolvePath env.cwd arg) = true)
    (h2 : env.fs.isDir (resolvePath env.cwd arg) = true) :
    resolveModuleDir env arg = .ok (resolvePath env.cwd arg) ∧
    load_module env arg = loadFromDir env (resolvePath env.cwd arg) ∧
    (∀ custom2 : List Path,
      resolveModuleDir { env with custom := custom2 } arg =
        .ok (resolvePath env.cwd arg)) := by
  refine ⟨?_, ?_, fun c2 => ?_⟩
  · simp [resolveModuleDir, h1, h2]
  · simp [load_module, resolveModuleDir, h1, h2]
  · simp [resolveModuleDir, h1, h2]

/-- Concrete environment for the C9 witness: a directory `/d` exists,
and a module of the same name `d` is installed under a search path. -/
def envW9 : RunEnv where
  fs := mkFS [(["d"], []), (["h", ".cognitive", "modules", "d"], [])]
    [(["h", ".cognitive", "modules", "d", "module.md"], "installed")]
  cwd := []
  home := ["h"]
  custom := []
  yamlParse := fun _ => .ok .null
  jsonLoads := fun _ => .ok .null
  yamlDump := fun _ => ""
  jsonDumps := fun _ => ""
  engine := fun _ _ => .ok
  llm := fun _ _ => .ok ""

/-- C9 witness: at the concrete environment the hypotheses hold and the
conclusion follows by the theorem. -/
theorem c9_local_dir_shadows_resolver_witness :
    resolveModuleDir envW9 "/d" = .ok (resolvePath envW9.cwd "/d") ∧
    load_module envW9 "/d" = loadFromDir envW9 (resolvePath envW9.cwd "/d") :=
  ⟨(c9_local_dir_shadows_resolver envW9 "/d" (by decide) (by decide)).1,
   (c9_local_dir_shadows_resolver envW9 "/d" (by decide) (by decide)).2.1⟩

/-! ## Claim C2: the loader does not probe the three descriptor formats -/

/-- Filesystem holding a complete, valid V2 module `m` (descriptor
`module.yaml`, no `module.md`) under the configured search path
`/mods`. -/
def fsC2 : FS :=
  mkFS [(["mods"], ["m"]), (["mods", "m"], [])]
    [(["mods", "m", "module.yaml"], "name: m"),
     (["mods", "m", "input.schema.json"], "{}"),
     (["mods", "m", "output.schema.json"], "{}"),
     (["mods", "m", "constraints.yaml"], "operational: {}"),
     (["mods", "m", "prompt.txt"], "prompt")]

/-- Loader environment over `fsC2`. -/
def envC2 : RunEnv where
  fs := fsC2
  cwd := ["w"]
  home := ["h"]
  custom := [["mods"]]
  yamlParse := fun _ => .ok (.obj [])
  jsonLoads := fun _ => .ok (.obj [])
  yamlDump := fun _ => ""
  jsonDumps := fun _ => ""
  engine := fun _ _ => .ok
  llm := fun _ _ => .ok ""

/-- C2: the resolver (`find_module`) accepts the V2 module `m` — its
directory carries `module.yaml`, one of the three descriptor files — but
`load_module` on the very same name fails with a missing-file error on
`module.md`, because it opens `module.md` unconditionally instead of
probing `module.yaml` / `MODULE.md` / `module.md` in priority order.  So
`load` does not succeed on all three otherwise-identical format
variants. -/
theorem c2_loader_rejects_v2_module :
    find_module fsC2 ["w"] ["h"] [["mods"]] "m" = some ["mods", "m"] ∧
    load_module envC2 "m" = .error (.fileMissing "module.md") := by
  constructor
  · rfl
  · rfl

/-! ## Claim C10: a corrupt registry cache is ignored and overwritten -/

/-- C10: when the cache file exists but cannot be read or parsed, a
cache-enabled fetch ignores it, performs the network fetch, returns the
fetched index and overwrites the cache with it. -/
theorem c10_corrupt_cache_self_healing (net : String → Except FetchErr Json)
    (urlArg envUrl : Option String) (d : Json)
    (h : net (urlArg.getD (envUrl.getD DEFAULT_REGISTRY_URL)) = .ok d) :
    fetch_registry net .corrupt urlArg envUrl true = (d, .content d) := by
  simp [fetch_registry, h]

/-- C10 witness: a concrete network delivering a concrete index. -/
theorem c10_corrupt_cache_self_healing_witness :
    fetch_registry (fun _ => .ok (.obj [("modules", .obj [])])) .corrupt none none true =
      (.obj [("modules", .obj [])], .content (.obj [("modules", .obj [])])) :=
  c10_corrupt_cache_self_healing _ none none _ rfl

/-! ## Claim C4: degraded registry fetch and empty search -/

/-- `FetchErr.message` renders a non-empty string. -/
theorem fetchErr_message_ne_empty (e : FetchErr) : e.message ≠ "" := by
  cases e with
  | urlError r =>
    intro h
    have hl := congrArg String.length h
    simp only [FetchErr.message, String.length_append,
      show ("<urlopen error ".length) = 15 from rfl,
      show (">".length) = 1 from rfl,
      show ("".length) = 0 from rfl] at hl
    omega
  | jsonDecodeError msg l c p =>
    intro h
    have hl := congrArg String.length h
    simp only [FetchErr.message, String.length_append,
      show (": line ".length) = 7 from rfl,
      show (" column ".length) = 8 from rfl,
      show (" (char ".length) = 7 from rfl,
      show (")".length) = 1 from rfl,
      show ("".length) = 0 from rfl] at hl
    omega

/-- C4: when the cache is unusable (absent or corrupt) and the network
fetch fails with any `URLError`/`JSONDecodeError`, `fetch_registry`
returns the degraded index `{modules: {}, error: <message>}` (with a
non-empty message) instead of raising, leaves the cache alone, and
`search_registry` against that environment returns the empty list. -/
theorem c4_degraded_fetch_and_empty_search (net : String → Except FetchErr Json)
    (cache : CacheFile) (envUrl : Option String) (use_cache : Bool) (e : FetchErr)
    (hcache : cache = .absent ∨ cache = .corrupt)
    (hnet : ∀ u, net u = .error e) :
    (∀ urlArg, fetch_registry net cache urlArg envUrl use_cache =
      (.obj [("modules", .obj []), ("error", .str e.message)], cache)) ∧
    e.message ≠ "" ∧
    (∀ q, search_registry net cache envUrl q = []) := by
  have hfetch : ∀ urlArg uc, fetch_registry net cache urlArg envUrl uc =
      (.obj [("modules", .obj []), ("error", .str e.message)], cache) := by
    intro urlArg uc
    rcases hcache with h | h <;> subst h <;> cases uc <;>
      simp [fetch_registry, hnet]
  refine ⟨fun urlArg => hfetch urlArg use_cache, fetchErr_message_ne_empty e, fun q => ?_⟩
  simp [search_registry, hfetch, searchIndex, Json.pyGet, alistLookup]

/-- C4 witness: a concrete unreachable network and corrupt cache. -/
theorem c4_degraded_fetch_and_empty_search_witness :
    fetch_registry (fun _ => .error (.urlError "unreachable")) .corrupt none none true =
      (.obj [("modules", .obj []),
             ("error", .str (FetchErr.urlError "unreachable").message)], .corrupt) ∧
    search_registry (fun _ => .error (.urlError "unreachable")) .corrupt none "x" = [] := by
  have h := c4_degraded_fetch_and_empty_search
    (fun _ => .error (.urlError "unreachable")) .corrupt none true
    (.urlError "unreachable") (Or.inr rfl) (fun _ => rfl)
  exact ⟨h.1 none, h.2.2 "x"⟩

/-! ## Claim C5: resolver search order, precedence, deduplication -/

/-- The condition under which `find_module` accepts a search path for a
name: subdirectory exists and carries a descriptor file. -/
def findCond (fs : FS) (name : String) (b : Path) : Bool :=
  fs.pexists (b ++ [name]) && is_valid_module fs (b ++ [name])

/-- The condition under which `list_modules` produces an entry named `n`
while scanning base `b` (with `n` not yet seen). -/
def yieldsModule (fs : FS) (b : Path) (n : String) : Bool :=
  fs.pexists b && decide (n ∈ fs.children b) && fs.isDir (b ++ [n]) &&
    (detectFormat fs (b ++ [n])).isSome

/-- C5 counterexample: with two configured extra paths `a` then `b`, the
search list starts `b, a, …` — the extra paths are *not* in the order
they were given (each `insert(0, ·)` reverses them). -/
theorem c5_counterexample :
    get_search_paths [] [] [["a"], ["b"]] ≠ [["a"], ["b"]] ++ SEARCH_PATHS [] [] := by
  decide

/-- Prepend-by-fold is reversal. -/
theorem foldl_cons_eq_reverse_append {α : Type} (l : List α) (init : List α) :
    l.foldl (fun acc p => p :: acc) init = l.reverse ++ init := by
  induction l generalizing init with
  | nil => rfl
  | cons p l ih =>
    rw [List.foldl_cons, ih (p :: init), List.reverse_cons, List.append_assoc]
    rfl

/-- `find_module`, written through `findCond`. -/
theorem find_module_eq (fs : FS) (cwd home : Path) (custom : List Path) (name : String) :
    find_module fs cwd home custom name =
      (get_search_paths cwd home custom).findSome?
        (fun b => if findCond fs name b then some (b ++ [name]) else none) := rfl

/-- `findSome?` over a decomposed list whose genuine first hit is `b1`. -/
theorem findSome_first (fs : FS) (name : String) (pre : List Path) (b1 : Path)
    (rest : List Path) (hpre : ∀ b ∈ pre, findCond fs name b = false)
    (hb1 : findCond fs name b1 = true) :
    (pre ++ b1 :: rest).findSome?
      (fun b => if findCond fs name b then some (b ++ [name]) else none) =
      some (b1 ++ [name]) := by
  induction pre with
  | nil => simp [List.findSome?, hb1]
  | cons p pre ih =>
    have hp : findCond fs name p = false := hpre p (by simp)
    rw [List.cons_append]
    have hstep : ((p :: (pre ++ b1 :: rest)).findSome?
        (fun b => if findCond fs name b then some (b ++ [name]) else none)) =
        ((pre ++ b1 :: rest).findSome?
          (fun b => if findCond fs name b then some (b ++ [name]) else none)) := by
      simp [List.findSome?, hp]
    rw [hstep]
    exact ih (fun b hb => hpre b (by simp [hb]))

/-- `processChild` on a child of another name: entries for `n` and
`n`-membership of the seen set are untouched. -/
theorem processChild_other (fs : FS) (cwd : Path) (n : String) (b : Path)
    (acc : List ModEntry × List String) (c : String) (hc : c ≠ n) :
    ((processChild fs cwd b acc c).1.filter (fun e => e.name = n) =
      acc.1.filter (fun e => e.name = n)) ∧
    (n ∈ (processChild fs cwd b acc c).2 ↔ n ∈ acc.2) := by
  unfold processChild
  split
  · exact ⟨rfl, Iff.rfl⟩
  · split
    · exact ⟨rfl, Iff.rfl⟩
    · split
      · exact ⟨rfl, Iff.rfl⟩
      · constructor
        · simp [List.filter_append, hc]
        · simp [hc, Ne.symm hc]

/-- `processChild` once `n` is already seen: entries for `n` untouched
and `n` stays seen. -/
theorem processChild_seen (fs : FS) (cwd : Path) (n : String) (b : Path)
    (acc : List ModEntry × List String) (c : String) (hs : n ∈ acc.2) :
    ((processChild fs cwd b acc c).1.filter (fun e => e.name = n) =
      acc.1.filter (fun e => e.name = n)) ∧
    n ∈ (processChild fs cwd b acc c).2 := by
  by_cases hc : c = n
  · subst hc
    unfold processChild
    by_cases hd : fs.isDir (b ++ [c]) = true
    · rw [if_neg (not_not_intro hd), if_pos hs]
      exact ⟨rfl, hs⟩
    · rw [if_pos hd]
      exact ⟨rfl, hs⟩
  · have h := processChild_other fs cwd n b acc c hc
    exact ⟨h.1, h.2.mpr hs⟩

/-- Folding `processChild` from a state where `n` is seen preserves the
`n`-entries and keeps `n` seen. -/
theorem foldChildren_seen (fs : FS) (cwd : Path) (n : String) (b : Path)
    (cs : List String) :
    ∀ acc, n ∈ acc.2 →
      ((cs.foldl (processChild fs cwd b) acc).1.filter (fun e => e.name = n) =
        acc.1.filter (fun e => e.name = n)) ∧
      n ∈ (cs.foldl (processChild fs cwd b) acc).2 := by
  induction cs with
  | nil => exact fun acc hs => ⟨rfl, hs⟩
  | cons c cs ih =>
    intro acc hs
    have h1 := processChild_seen fs cwd n b acc c hs
    have h2 := ih (processChild fs cwd b acc c) h1.2
    exact ⟨h2.1.trans h1.1, h2.2⟩

/-- `processChild` at child `n` itself is a no-op when the directory or
format check fails. -/
theorem processChild_n_noop (fs : FS) (cwd : Path) (n : String) (b : Path)
    (h : fs.isDir (b ++ [n]) = false ∨ detectFormat fs (b ++ [n]) = none)
    (acc : List ModEntry × List String) :
    processChild fs cwd b acc n = acc := by
  unfold processChild
  rcases h with h | h
  · rw [if_pos (by simp [h])]
  · split
    · rfl
    · split
      · rfl
      · rw [h]

/-- Folding `processChild` over children that cannot produce an
`n`-entry preserves the `n`-entries and `n`-membership of seen. -/
theorem foldChildren_preserve (fs : FS) (cwd : Path) (n : String) (b : Path)
    (cs : List String)
    (hno : fs.isDir (b ++ [n]) = false ∨ detectFormat fs (b ++ [n]) = none ∨ n ∉ cs) :
    ∀ acc,
      ((cs.foldl (processChild fs cwd b) acc).1.filter (fun e => e.name = n) =
        acc.1.filter (fun e => e.name = n)) ∧
      (n ∈ (cs.foldl (processChild fs cwd b) acc).2 ↔ n ∈ acc.2) := by
  induction cs with
  | nil => exact fun acc => ⟨rfl, Iff.rfl⟩
  | cons c cs ih =>
    intro acc
    by_cases hc : c = n
    · subst hc
      have hnd : fs.isDir (b ++ [c]) = false ∨ detectFormat fs (b ++ [c]) = none := by
        rcases hno with h | h | h
        · exact Or.inl h
        · exact Or.inr h
        · exact absurd (by simp : c ∈ c :: cs) h
      have hnoop := processChild_n_noop fs cwd c b hnd acc
      have hno' : fs.isDir (b ++ [c]) = false ∨ detectFormat fs (b ++ [c]) = none ∨
          c ∉ cs := by
        rcases hnd with h | h
        · exact Or.inl h
        · exact Or.inr (Or.inl h)
      simpa [List.foldl_cons, hnoop] using ih hno' acc
    · have h1 := processChild_other fs cwd n b acc c hc
      have hno' : fs.isDir (b ++ [n]) = false ∨ detectFormat fs (b ++ [n]) = none ∨
          n ∉ cs := by
        rcases hno with h | h | h
        · exact Or.inl h
        · exact Or.inr (Or.inl h)
        · exact Or.inr (Or.inr (fun hm => h (by simp [hm])))
      have h2 := ih hno' (processChild fs cwd b acc c)
      exact ⟨h2.1.trans h1.1, h2.2.trans h1.2⟩

/-- Folding `processChild` over children containing `n` (unseen, valid
directory, detected format) appends exactly one `n`-entry. -/
theorem foldChildren_yield (fs : FS) (cwd : Path) (n : String) (b : Path) (fmt : String)
    (hdir : fs.isDir (b ++ [n]) = true) (hfmt : detectFormat fs (b ++ [n]) = some fmt)
    (cs : List String) (hmem : n ∈ cs) :
    ∀ acc, n ∉ acc.2 →
      ((cs.foldl (processChild fs cwd b) acc).1.filter (fun e => e.name = n) =
        acc.1.filter (fun e => e.name = n) ++
        [{ name := n, path := b ++ [n],
           location := if b = cwd ++ ["cognitive", "modules"] then "local" else "global",
           format := fmt }]) ∧
      n ∈ (cs.foldl (processChild fs cwd b) acc).2 := by
  induction cs with
  | nil => exact absurd hmem (by simp)
  | cons c cs ih =>
    intro acc hns
    by_cases hc : c = n
    · subst hc
      have hstep : processChild fs cwd b acc c =
          (acc.1 ++
            [{ name := c, path := b ++ [c],
               location := if b = cwd ++ ["cognitive", "modules"] then "local" else "global",
               format := fmt }],
           c :: acc.2) := by
        unfold processChild
        rw [if_neg (by simp [hdir]), if_neg (by simpa using hns), hfmt]
      have hseen := foldChildren_seen fs cwd c b cs
        (processChild fs cwd b acc c) (by rw [hstep]; simp)
      refine ⟨hseen.1.trans ?_, hseen.2⟩
      rw [hstep]
      simp [List.filter_append]
    · have h1 := processChild_other fs cwd n b acc c hc
      have hmem' : n ∈ cs := by
        rcases List.mem_cons.mp hmem with h | h
        · exact absurd h.symm hc
        · exact h
      have h2 := ih hmem' (processChild fs cwd b acc c) (fun hm => hns (h1.2.mp hm))
      exact ⟨h2.1.trans (by rw [h1.1]), h2.2⟩

/-- `processBase` once `n` is seen: preserves `n`-entries, keeps `n`
seen. -/
theorem processBase_seen (fs : FS) (cwd : Path) (n : String) (b : Path)
    (acc : List ModEntry × List String) (hs : n ∈ acc.2) :
    ((processBase fs cwd acc b).1.filter (fun e => e.name = n) =
      acc.1.filter (fun e => e.name = n)) ∧
    n ∈ (processBase fs cwd acc b).2 := by
  unfold processBase
  split
  · exact ⟨rfl, hs⟩
  · exact foldChildren_seen fs cwd n b (fs.children b) acc hs

/-- `processBase` on a base that cannot yield `n`: preserves the
`n`-entries and `n`-membership of seen. -/
theorem processBase_noYield (fs : FS) (cwd : Path) (n : String) (b : Path)
    (hb : yieldsModule fs b n = false) (acc : List ModEntry × List String) :
    ((processBase fs cwd acc b).1.filter (fun e => e.name = n) =
      acc.1.filter (fun e => e.name = n)) ∧
    (n ∈ (processBase fs cwd acc b).2 ↔ n ∈ acc.2) := by
  unfold processBase
  split
  · exact ⟨rfl, Iff.rfl⟩
  · rename_i hex
    have hex' : fs.pexists b = true := by
      revert hex
      cases fs.pexists b <;> simp
    have hno : fs.isDir (b ++ [n]) = false ∨ detectFormat fs (b ++ [n]) = none ∨
        n ∉ fs.children b := by
      unfold yieldsModule at hb
      rw [hex'] at hb
      simp only [Bool.true_and, Bool.and_eq_false_iff] at hb
      rcases hb with (h | h) | h
      · exact Or.inr (Or.inr (by simpa using h))
      · exact Or.inl (by simpa using h)
      · exact Or.inr (Or.inl (by simpa [Option.isSome_iff_exists] using h))
    exact foldChildren_preserve fs cwd n b (fs.children b) hno acc

/-- `processBase` on a base that yields `n` (with `n` unseen): appends
exactly one `n`-entry, tagged with the base's location class and the
detected format. -/
theorem processBase_yield (fs : FS) (cwd : Path) (n : String) (b : Path)
    (hb : yieldsModule fs b n = true) (acc : List ModEntry × List String)
    (hns : n ∉ acc.2) :
    ((processBase fs cwd acc b).1.filter (fun e => e.name = n) =
      acc.1.filter (fun e => e.name = n) ++
      [{ name := n, path := b ++ [n],
         location := if b = cwd ++ ["cognitive", "modules"] then "local" else "global",
         format := (detectFormat fs (b ++ [n])).getD "" }]) ∧
    n ∈ (processBase fs cwd acc b).2 := by
  unfold yieldsModule at hb
  simp only [Bool.and_eq_true, decide_eq_true_eq, Option.isSome_iff_exists] at hb
  obtain ⟨⟨⟨hex, hmem⟩, hdir⟩, fmt, hfmt⟩ := hb
  unfold processBase
  rw [if_neg (by simp [hex])]
  have h := foldChildren_yield fs cwd n b fmt hdir hfmt (fs.children b) hmem acc hns
  rw [hfmt]
  exact h

/-- Folding `processBase` over bases none of which yields `n`. -/
theorem foldBases_noYield (fs : FS) (cwd : Path) (n : String) (bs : List Path)
    (h : ∀ b ∈ bs, yieldsModule fs b n = false) :
    ∀ acc,
      (((bs.foldl (processBase fs cwd) acc).1.filter (fun e => e.name = n)) =
        acc.1.filter (fun e => e.name = n)) ∧
      (n ∈ (bs.foldl (processBase fs cwd) acc).2 ↔ n ∈ acc.2) := by
  induction bs with
  | nil => exact fun acc => ⟨rfl, Iff.rfl⟩
  | cons b bs ih =>
    intro acc
    have h1 := processBase_noYield fs cwd n b (h b (by simp)) acc
    have h2 := ih (fun b hb => h b (by simp [hb])) (processBase fs cwd acc b)
    exact ⟨h2.1.trans h1.1, h2.2.trans h1.2⟩

/-- Folding `processBase` from a state where `n` is seen. -/
theorem foldBases_seen (fs : FS) (cwd : Path) (n : String) (bs : List Path) :
    ∀ acc, n ∈ acc.2 →
      (((bs.foldl (processBase fs cwd) acc).1.filter (fun e => e.name = n)) =
        acc.1.filter (fun e => e.name = n)) ∧
      n ∈ (bs.foldl (processBase fs cwd) acc).2 := by
  induction bs with
  | nil => exact fun acc hs => ⟨rfl, hs⟩
  | cons b bs ih =>
    intro acc hs
    have h1 := processBase_seen fs cwd n b acc hs
    have h2 := ih (processBase fs cwd acc b) h1.2
    exact ⟨h2.1.trans h1.1, h2.2⟩

/-- C5 amended: the configuration-injected extra paths do come first and
each takes priority over all fixed paths, but they appear in *reverse*
of the order given (`get_search_paths = custom.reverse ++ SEARCH_PATHS`);
given a name valid under a higher-priority path `b1` and again under a
lower-priority path `b2`, `find_module` returns `b1`'s path and
`list_modules` reports exactly one entry for the name — the one from
`b1`, tagged with its location class and detected format. -/
theorem c5_search_order_precedence_dedup (fs : FS) (cwd home : Path)
    (custom : List Path) (name : String) :
    (get_search_paths cwd home custom = custom.reverse ++ SEARCH_PATHS cwd home) ∧
    (∀ pre b1 mid b2 post,
      get_search_paths cwd home custom = pre ++ b1 :: (mid ++ b2 :: post) →
      (∀ b ∈ pre, findCond fs name b = false) →
      findCond fs name b1 = true → findCond fs name b2 = true →
      find_module fs cwd home custom name = some (b1 ++ [name])) ∧
    (∀ pre b1 mid b2 post,
      get_search_paths cwd home custom = pre ++ b1 :: (mid ++ b2 :: post) →
      (∀ b ∈ pre, yieldsModule fs b name = false) →
      yieldsModule fs b1 name = true → yieldsModule fs b2 name = true →
      (list_modules fs cwd home custom).filter (fun e => e.name = name) =
        [{ name := name, path := b1 ++ [name],
           location := if b1 = cwd ++ ["cognitive", "modules"] then "local" else "global",
           format := (detectFormat fs (b1 ++ [name])).getD "" }]) := by
  refine ⟨foldl_cons_eq_reverse_append custom _, ?_, ?_⟩
  · intro pre b1 mid b2 post hdec hpre hb1 _
    rw [find_module_eq, hdec]
    exact findSome_first fs name pre b1 (mid ++ b2 :: post) hpre hb1
  · intro pre b1 mid b2 post hdec hpre hb1 _
    unfold list_modules
    rw [hdec, List.foldl_append, List.foldl_cons]
    have h1 := foldBases_noYield fs cwd name pre hpre ([], [])
    have h2 := processBase_yield fs cwd name b1 hb1
      (pre.foldl (processBase fs cwd) ([], []))
      (by
        intro hm
        exact absurd (h1.2.mp hm) (by simp))
    have h3 := foldBases_seen fs cwd name (mid ++ b2 :: post)
      (processBase fs cwd (pre.foldl (processBase fs cwd) ([], [])) b1) h2.2
    rw [h3.1, h2.1, h1.1]
    simp

/-- Concrete two-location filesystem for the C5 witness: module `m`
exists both under the custom path `/x` (as V2) and under the user-global
store (as V0). -/
def fsW5 : FS :=
  mkFS [(["x"], ["m"]), (["x", "m"], []),
        (["h", ".cognitive", "modules"], ["m"]), (["h", ".cognitive", "modules", "m"], [])]
    [(["x", "m", "module.yaml"], "a"),
     (["h", ".cognitive", "modules", "m", "module.md"], "b")]

/-- C5 witness: at the concrete two-location filesystem the amended
claim's hypotheses hold and the conclusions follow by the theorem. -/
theorem c5_search_order_precedence_dedup_witness :
    find_module fsW5 ["w"] ["h"] [["x"]] "m" = some (["x"] ++ ["m"]) ∧
    (list_modules fsW5 ["w"] ["h"] [["x"]]).filter (fun e => e.name = "m") =
      [{ name := "m", path := ["x"] ++ ["m"],
         location := if (["x"] : Path) = ["w"] ++ ["cognitive", "modules"]
                     then "local" else "global",
         format := (detectFormat fsW5 (["x"] ++ ["m"])).getD "" }] := by
  have h := c5_search_order_precedence_dedup fsW5 ["w"] ["h"] [["x"]] "m"
  constructor
  · exact h.2.1 [] ["x"] [["w", "cognitive", "modules"]] ["h", ".cognitive", "modules"]
      [["usr", "local", "share", "cognitive", "modules"]] (by decide)
      (by intro b hb; simp at hb) (by decide) (by decide)
  · exact h.2.2 [] ["x"] [["w", "cognitive", "modules"]] ["h", ".cognitive", "modules"]
      [["usr", "local", "share", "cognitive", "modules"]] (by decide)
      (by intro b hb; simp at hb) (by decide) (by decide)

/-! ## Claim C1: failed post-install validation rolls the install back -/

/-- Every successful `install_from_local` returns a target of the form
`USER_MODULES_DIR/<name>` and a store containing exactly one copy of
that name. -/
theorem install_from_local_ok_shape (env : InstallEnv) (st : Store) (raw : String)
    (nm : Option String) (target : Path) (st' : Store)
    (h : install_from_local env st raw nm = .ok (target, st')) :
    ∃ mn, target = USER_MODULES_DIR env.home ++ [mn] ∧
      st'.mods = mn :: st.mods.erase mn := by
  simp only [install_from_local] at h
  split at h
  · exact absurd h (by simp)
  · split at h
    · exact absurd h (by simp)
    · simp only [Except.ok.injEq, Prod.mk.injEq] at h
      obtain ⟨h1, h2⟩ := h
      exact ⟨nm.getD (lastComp (resolvePath env.cwd raw)), h1.symm, by rw [← h2]⟩

/-- `cloneAndInstall` success factors through `install_from_local`. -/
theorem cloneAndInstall_ok_shape (env : InstallEnv) (st : Store) (url : String)
    (subdir : Option String) (nm : Option String) (target : Path) (st' : Store)
    (h : cloneAndInstall env st url subdir nm = .ok (target, st')) :
    ∃ mn, target = USER_MODULES_DIR env.home ++ [mn] ∧
      st'.mods = mn :: st.mods.erase mn := by
  simp only [cloneAndInstall] at h
  split at h
  · exact absurd h (by simp)
  · split at h
    · exact absurd h (by simp)
    · exact install_from_local_ok_shape _ _ _ _ _ _ h

/-- `install_from_git` success factors through `install_from_local`. -/
theorem install_from_git_ok_shape (env : InstallEnv) (st : Store) (url0 : String)
    (subdir0 : Option String) (nm : Option String) (target : Path) (st' : Store)
    (h : install_from_git env st url0 subdir0 nm = .ok (target, st')) :
    ∃ mn, target = USER_MODULES_DIR env.home ++ [mn] ∧
      st'.mods = mn :: st.mods.erase mn := by
  simp only [install_from_git] at h
  split at h
  · split at h
    · exact cloneAndInstall_ok_shape _ _ _ _ _ _ _ h
    · exact absurd h (by simp)
  · split at h
    · split at h
      · exact cloneAndInstall_ok_shape _ _ _ _ _ _ _ h
      · exact cloneAndInstall_ok_shape _ _ _ _ _ _ _ h
    · exact cloneAndInstall_ok_shape _ _ _ _ _ _ _ h

/-- Every successful `install_module` (through any source form) returns
a target of the form `USER_MODULES_DIR/<name>` with that name present
exactly once in the resulting store. -/
theorem install_module_ok_shape (env : InstallEnv) : ∀ (fuel : Nat) (st : Store)
    (source : String) (nm : Option String) (target : Path) (st' : Store),
    install_module env fuel st source nm = .ok (target, st') →
    ∃ mn, target = USER_MODULES_DIR env.home ++ [mn] ∧
      st'.mods = mn :: st.mods.erase mn := by
  intro fuel
  induction fuel with
  | zero =>
    intro st source nm target st' h
    exact absurd h (by simp [install_module])
  | succ f ih =>
    intro st source nm target st' h
    simp only [install_module] at h
    split at h
    · exact install_from_local_ok_shape _ _ _ _ _ _ h
    · split at h
      · split at h
        · exact absurd h (by simp)
        · exact ih _ _ _ _ _ h
      · split at h
        · exact install_from_git_ok_shape _ _ _ _ _ _ _ h
        · split at h
          · exact install_from_local_ok_shape _ _ _ _ _ _ h
          · split at h
            · exact install_from_git_ok_shape _ _ _ _ _ _ _ h
            · split at h
              · rename_i r hr
                split at hr
                · exact absurd hr (by simp)
                · cases h
                  exact ih _ _ _ _ _ hr
              · exact install_from_local_ok_shape _ _ _ _ _ _ h

/-- C1: for every source whose install succeeds but whose freshly
installed module fails the post-install validation, `install_cmd`
surfaces an error and the installed directory's name is no longer
present in the module store — the install is rolled back before the
error reaches the caller. -/
theorem c1_failed_validation_rolls_back (env : InstallEnv) (fuel : Nat) (st : Store)
    (source : String) (name : Option String) (target : Path) (st' : Store)
    (hnodup : st.mods.Nodup)
    (hinst : install_module env fuel st source name = .ok (target, st'))
    (hval : (env.validator (pathToString target)).1 = false) :
    install_cmd env fuel st source name =
      (.error "Installed module failed validation",
       { st' with mods := (uninstall_module st'.mods (lastComp target)).1 }) ∧
    lastComp target ∉ (uninstall_module st'.mods (lastComp target)).1 := by
  obtain ⟨mn, htgt, hmods⟩ := install_module_ok_shape env fuel st source name target st' hinst
  have hlast : lastComp target = mn := by
    rw [htgt]
    unfold lastComp
    rw [List.getLast?_concat]
    rfl
  constructor
  · unfold install_cmd
    rw [hinst]
    simp only [hval]
    rfl
  · rw [hlast, hmods]
    unfold uninstall_module
    rw [if_pos (by simp)]
    simp only [List.erase_cons_head]
    exact hnodup.not_mem_erase

/-- Concrete environment for the C1 witness: a valid local module at
`/src`, a validator that rejects everything. -/
def envW1 : InstallEnv where
  fs := mkFS [(["src"], [])] [(["src", "module.md"], "x")]
  cwd := []
  home := ["h"]
  net := fun _ => .error (.urlError "offline")
  cacheFile := .absent
  envUrl := none
  gitClone := fun _ => .error "no git"
  validator := fun _ => (false, ["example output fails schema validation"], [])

/-- The store state right after the concrete C1 install. -/
def stW1' : Store where
  mods := ["src"]
  manifest := .content [("src",
    { source := "/src", github_url := none, module_path := none,
      installed_at := "/h/.cognitive/modules/src" })]

/-- C1 witness: at the concrete input the hypotheses hold and the
rollback conclusion follows by the theorem. -/
theorem c1_failed_validation_rolls_back_witness :
    install_cmd envW1 1 { mods := [], manifest := .absent } "local:/src" none =
      (.error "Installed module failed validation",
       { stW1' with
         mods := (uninstall_module stW1'.mods
           (lastComp (USER_MODULES_DIR ["h"] ++ ["src"]))).1 }) ∧
    lastComp (USER_MODULES_DIR ["h"] ++ ["src"]) ∉
      (uninstall_module stW1'.mods (lastComp (USER_MODULES_DIR ["h"] ++ ["src"]))).1 :=
  c1_failed_validation_rolls_back envW1 1 { mods := [], manifest := .absent }
    "local:/src" none (USER_MODULES_DIR ["h"] ++ ["src"]) stW1'
    List.nodup_nil rfl rfl

/-! ## Claim C3: input validation precedes the provider call -/

/-- C3: with input validation enabled, an input with at least one
input-schema violation makes the pipeline terminate with the validation
error, and the provider-invocation event never occurs in the run's
trace — in the packaged pipeline (`runner.run_module`) and in the
runtime pipeline (`runtime/run_module.py`). -/
theorem c3_invalid_input_never_invokes_provider (env : RunEnv) (arg : String)
    (input : Json) (vOut : Bool) (model : Option String) (m : Module)
    (baseDir : Path) (mn : String) (m2 : Module)
    (hload : load_module env arg = .ok m)
    (hviol : validate_data env.engine input m.input_schema "Input" ≠ [])
    (hload2 : runtime_load_module env baseDir mn = .ok m2)
    (hviol2 : validate_data env.engine input m2.input_schema "Input" ≠ []) :
    (run_module env arg input true vOut model =
      ([.validateInput],
       .error (.inputValidation (validate_data env.engine input m.input_schema "Input"))) ∧
     ∀ p, Ev.invoke p ∉ (run_module env arg input true vOut model).1) ∧
    (runtime_run_module env baseDir mn input true =
      ([.validateInput],
       .error (.inputValidation (validate_data env.engine input m2.input_schema "Input"))) ∧
     ∀ p, Ev.invoke p ∉ (runtime_run_module env baseDir mn input true).1) := by
  have hcog : run_module env arg input true vOut model =
      ([.validateInput],
       .error (.inputValidation (validate_data env.engine input m.input_schema "Input"))) := by
    cases hv : validate_data env.engine input m.input_schema "Input" with
    | nil => exact absurd hv hviol
    | cons e es => simp [run_module, hload, hv]
  have hrt : runtime_run_module env baseDir mn input true =
      ([.validateInput],
       .error (.inputValidation (validate_data env.engine input m2.input_schema "Input"))) := by
    cases hv : validate_data env.engine input m2.input_schema "Input" with
    | nil => exact absurd hv hviol2
    | cons e es => simp [runtime_run_module, hload2, hv]
  refine ⟨⟨hcog, ?_⟩, ⟨hrt, ?_⟩⟩
  · rw [hcog]
    intro p
    simp
  · rw [hrt]
    intro p
    simp

/-- Concrete environment for the C3 witness: a loadable module under the
directory `/d` and under the runtime store, with a schema engine that
reports a missing required property. -/
def envW3 : RunEnv where
  fs := mkFS
    [(["d"], []), (["r", "cognitive", "modules", "m"], [])]
    [(["d", "module.md"], "x"),
     (["d", "input.schema.json"], "{}"),
     (["d", "output.schema.json"], "{}"),
     (["d", "constraints.yaml"], "c"),
     (["d", "prompt.txt"], "p"),
     (["r", "cognitive", "modules", "m", "module.md"], "x"),
     (["r", "cognitive", "modules", "m", "input.schema.json"], "{}"),
     (["r", "cognitive", "modules", "m", "output.schema.json"], "{}"),
     (["r", "cognitive", "modules", "m", "constraints.yaml"], "c"),
     (["r", "cognitive", "modules", "m", "prompt.txt"], "p")]
  cwd := []
  home := ["h"]
  custom := []
  yamlParse := fun _ => .ok (.obj [])
  jsonLoads := fun _ => .ok (.obj [])
  yamlDump := fun _ => ""
  jsonDumps := fun _ => ""
  engine := fun _ _ => .invalid "is a required property" ["name"]
  llm := fun _ _ => .ok "resp"

/-- The module record the C3 witness loads from `/d`. -/
def mW3 : Module where
  name := "d"
  path := ["d"]
  metadata := .obj []
  input_schema := .obj []
  output_schema := .obj []
  constraints := .obj []
  prompt := "p"

/-- The module record the C3 witness loads from the runtime store. -/
def mW3rt : Module where
  name := "m"
  path := ["r", "cognitive", "modules", "m"]
  metadata := .obj []
  input_schema := .obj []
  output_schema := .obj []
  constraints := .obj []
  prompt := "p"

/-- C3 witness: at the concrete input both pipelines stop at the input
validation error with no provider invocation in the trace. -/
theorem c3_invalid_input_never_invokes_provider_witness :
    run_module envW3 "/d" (.obj []) true true none =
      ([.validateInput],
       .error (.inputValidation
         (validate_data envW3.engine (.obj []) mW3.input_schema "Input"))) ∧
    runtime_run_module envW3 ["r"] "m" (.obj []) true =
      ([.validateInput],
       .error (.inputValidation
         (validate_data envW3.engine (.obj []) mW3rt.input_schema "Input"))) :=
  have h := c3_invalid_input_never_invokes_provider envW3 "/d" (.obj []) true none
    mW3 ["r"] "m" mW3rt rfl (by decide) rfl (by decide)
  ⟨h.1.1, h.2.1⟩

/-! ## Claim C8: what the manifest entry actually records -/

/-- `alistLookup` on a cons cell. -/
theorem alistLookup_cons {α : Type} (k' : String) (v : α) (m : List (String × α))
    (k : String) :
    alistLookup ((k', v) :: m) k = if k' = k then some v else alistLookup m k := by
  by_cases h : k' = k <;> simp [alistLookup, List.find?, h]

/-- `setEntry` on a cons cell. -/
theorem setEntry_cons (k' : String) (v : ManEntry) (m : List (String × ManEntry))
    (n : String) (e : ManEntry) :
    setEntry ((k', v) :: m) n e =
      if k' = n then setEntry m n e else (k', v) :: setEntry m n e := by
  by_cases h : k' = n <;> simp [setEntry, List.filter_cons, h]

/-- Lookup of the freshly written key in `setEntry`. -/
theorem alistLookup_setEntry_self (m : List (String × ManEntry)) (n : String)
    (e : ManEntry) : alistLookup (setEntry m n e) n = some e := by
  induction m with
  | nil => simp [setEntry, alistLookup, List.find?]
  | cons kv m ih =>
    rcases kv with ⟨k', v⟩
    rw [setEntry_cons]
    by_cases h : k' = n
    · rw [if_pos h]
      exact ih
    · rw [if_neg h, alistLookup_cons, if_neg h]
      exact ih

/-- Lookup of any other key in `setEntry` is unchanged. -/
theorem alistLookup_setEntry_other (m : List (String × ManEntry)) (n : String)
    (e : ManEntry) (k : String) (hk : k ≠ n) :
    alistLookup (setEntry m n e) k = alistLookup m k := by
  induction m with
  | nil =>
    rw [show setEntry [] n e = [(n, e)] from rfl, alistLookup_cons,
      if_neg (Ne.symm hk)]
  | cons kv m ih =>
    rcases kv with ⟨k', v⟩
    rw [setEntry_cons]
    by_cases h : k' = n
    · rw [if_pos h, ih, alistLookup_cons, if_neg (by rw [h]; exact Ne.symm hk)]
    · rw [if_neg h, alistLookup_cons, alistLookup_cons]
      by_cases h2 : k' = k
      · rw [if_pos h2, if_pos h2]
      · rw [if_neg h2, if_neg h2]
        exact ih

/-- C8 amended: every successful `install_from_local` (the common tail
of all install paths) rewrites the manifest by read-modify-write:
the entry keyed by the module name is created or overwritten with
`source` = the string of the resolved source directory path,
`github_url` = None, `module_path` = None and `installed_at` = the
string of the install location; entries for every other name are
preserved. -/
theorem c8_manifest_entry_fields (env : InstallEnv) (st : Store) (raw : String)
    (nm : Option String) (target : Path) (st' : Store)
    (h : install_from_local env st raw nm = .ok (target, st')) :
    ∃ mn, target = USER_MODULES_DIR env.home ++ [mn] ∧
      st'.manifest = .content (setEntry (manifestEntries st.manifest) mn
        { source := pathToString (resolvePath env.cwd raw),
          github_url := none, module_path := none,
          installed_at := pathToString (env.home ++ [".cognitive", "modules", mn]) }) ∧
      alistLookup (manifestEntries st'.manifest) mn = some
        { source := pathToString (resolvePath env.cwd raw),
          github_url := none, module_path := none,
          installed_at := pathToString (env.home ++ [".cognitive", "modules", mn]) } ∧
      (∀ k, k ≠ mn → alistLookup (manifestEntries st'.manifest) k =
        alistLookup (manifestEntries st.manifest) k) := by
  simp only [install_from_local] at h
  split at h
  · exact absurd h (by simp)
  · split at h
    · exact absurd h (by simp)
    · simp only [Except.ok.injEq, Prod.mk.injEq] at h
      obtain ⟨h1, h2⟩ := h
      refine ⟨nm.getD (lastComp (resolvePath env.cwd raw)), h1.symm, ?_, ?_, ?_⟩
      · rw [← h2]
        rfl
      · rw [← h2]
        exact alistLookup_setEntry_self _ _ _
      · intro k hk
        rw [← h2]
        exact alistLookup_setEntry_other _ _ _ k hk

/-- Concrete installer environment for C8: a valid module at the
absolute path `/abs/m`, installed via the source URI `local:/abs/m`. -/
def envW8 : InstallEnv where
  fs := mkFS [(["abs", "m"], [])] [(["abs", "m", "module.md"], "x")]
  cwd := []
  home := ["h"]
  net := fun _ => .error (.urlError "offline")
  cacheFile := .absent
  envUrl := none
  gitClone := fun _ => .error "no git"
  validator := fun _ => (true, [], [])

/-- The store state after the concrete C8 install. -/
def stW8' : Store where
  mods := ["m"]
  manifest := .content [("m",
    { source := "/abs/m", github_url := none, module_path := none,
      installed_at := "/h/.cognitive/modules/m" })]

/-- C8 counterexample: installing the caller-supplied URI `local:/abs/m`
succeeds, and the manifest entry's `source` field holds the resolved
path `/abs/m` — not the original URI string the caller supplied. -/
theorem c8_source_field_is_not_original_uri :
    install_module envW8 1 { mods := [], manifest := .absent } "local:/abs/m" none =
      .ok (USER_MODULES_DIR ["h"] ++ ["m"], stW8') ∧
    alistLookup (manifestEntries stW8'.manifest) "m" =
      some { source := "/abs/m", github_url := none, module_path := none,
             installed_at := "/h/.cognitive/modules/m" } ∧
    ("/abs/m" : String) ≠ "local:/abs/m" :=
  ⟨rfl, rfl, by decide⟩

/-- C8 witness: the amended manifest description at the concrete
install. -/
theorem c8_manifest_entry_fields_witness :
    stW8'.manifest = .content (setEntry (manifestEntries ManifestFile.absent) "m"
      { source := pathToString (resolvePath envW8.cwd "/abs/m"),
        github_url := none, module_path := none,
        installed_at := pathToString (envW8.home ++ [".cognitive", "modules", "m"]) }) ∧
    alistLookup (manifestEntries stW8'.manifest) "m" = some
      { source := pathToString (resolvePath envW8.cwd "/abs/m"),
        github_url := none, module_path := none,
        installed_at := pathToString (envW8.home ++ [".cognitive", "modules", "m"]) } := by
  have h := c8_manifest_entry_fields envW8 { mods := [], manifest := .absent }
    "/abs/m" none (USER_MODULES_DIR ["h"] ++ ["m"]) stW8' rfl
  obtain ⟨mn, hmn, h1, h2, _⟩ := h
  have hmn' : mn = "m" := by
    have h5 := congrArg lastComp hmn
    simp [lastComp, List.getLast?_concat] at h5
    exact h5.symm
  subst hmn'
  exact ⟨h1, h2⟩

/-! ## Claim C7: the confidence check -/

/-- When the effective threshold is a rational `qm`, the runtime
comparison of a numeric confidence is exactly `qc < qm`. -/
theorem confCompare_of_eff (constraints : Json) (qc qm : ℚ)
    (h : effMinViable constraints = .ok qm) :
    confCompare constraints (.num qc) = .ok (decide (qc < qm)) := by
  cases constraints with
  | obj kvs =>
    simp only [effMinViable] at h
    simp only [confCompare]
    cases hts : (alistLookup kvs "confidence_thresholds").getD (.obj []) with
    | obj ts =>
      simp only [hts] at h ⊢
      cases hmv : (alistLookup ts "minimum_viable").getD (.num defaultMinViable) with
      | num q =>
        simp only [hmv] at h ⊢
        injection h with h'
        rw [h']
      | null => simp [hmv] at h
      | bool b => simp [hmv] at h
      | str s => simp [hmv] at h
      | arr xs => simp [hmv] at h
      | obj kvs2 => simp [hmv] at h
    | null => simp [hts] at h
    | bool b => simp [hts] at h
    | num q => simp [hts] at h
    | str s => simp [hts] at h
    | arr xs => simp [hts] at h
  | null => simp [effMinViable] at h
  | bool b => simp [effMinViable] at h
  | num q => simp [effMinViable] at h
  | str s => simp [effMinViable] at h
  | arr xs => simp [effMinViable] at h

/-- Inversion of the runtime confidence step on a successful result. -/
theorem runtimeConfidenceStep_inversion (m : Module) (out0 : Json) (evs tr : List Ev)
    (out : Json) (warn : Bool) (qc qm : ℚ)
    (h : runtimeConfidenceStep m out0 evs = (tr, .ok (out, warn)))
    (hconf : out.getKey "confidence" = some (.num qc))
    (heff : effMinViable m.constraints = .ok qm) :
    warn = decide (qc < qm) := by
  simp only [runtimeConfidenceStep] at h
  split at h
  · rename_i hnone
    simp only [Prod.mk.injEq, Except.ok.injEq] at h
    obtain ⟨-, h2, h3⟩ := h
    rw [← h2] at hconf
    rw [hnone] at hconf
    cases hconf
  · rename_i c hsome
    split at h
    · simp at h
    · rename_i w hcmp
      simp only [Prod.mk.injEq, Except.ok.injEq] at h
      obtain ⟨-, h2, h3⟩ := h
      rw [← h2] at hconf
      rw [hsome] at hconf
      injection hconf with hc
      rw [hc] at hcmp
      rw [confCompare_of_eff m.constraints qc qm heff] at hcmp
      injection hcmp with hw
      rw [← h3, ← hw]

/-- Inversion of the runtime invoke/parse/validate tail on a successful
result. -/
theorem runtimeTail_confidence_inversion (env : RunEnv) (m : Module) (input : Json)
    (validate : Bool) (evs tr : List Ev) (out : Json) (warn : Bool) (qc qm : ℚ)
    (h : runtimeTail env m input validate evs = (tr, .ok (out, warn)))
    (hconf : out.getKey "confidence" = some (.num qc))
    (heff : effMinViable m.constraints = .ok qm) :
    warn = decide (qc < qm) := by
  simp only [runtimeTail] at h
  split at h
  · simp at h
  · split at h
    · simp at h
    · split at h
      · split at h
        · exact runtimeConfidenceStep_inversion _ _ _ _ _ _ _ _ h hconf heff
        · simp at h
      · exact runtimeConfidenceStep_inversion _ _ _ _ _ _ _ _ h hconf heff

/-- Inversion of the whole runtime pipeline on a successful result. -/
theorem runtime_run_confidence_inversion (env : RunEnv) (baseDir : Path) (mn : String)
    (input : Json) (validate : Bool) (tr : List Ev) (out : Json) (warn : Bool)
    (m : Module) (qc qm : ℚ)
    (hload : runtime_load_module env baseDir mn = .ok m)
    (hrun : runtime_run_module env baseDir mn input validate = (tr, .ok (out, warn)))
    (hconf : out.getKey "confidence" = some (.num qc))
    (heff : effMinViable m.constraints = .ok qm) :
    warn = decide (qc < qm) := by
  simp only [runtime_run_module, hload] at hrun
  split at hrun
  · split at hrun
    · exact runtimeTail_confidence_inversion _ _ _ _ _ _ _ _ _ _ hrun hconf heff
    · simp at hrun
  · exact runtimeTail_confidence_inversion _ _ _ _ _ _ _ _ _ _ hrun hconf heff

/-- The packaged pipeline's tail appends only invoke/parse/validate
events. -/
theorem runTail_trace_shape (env : RunEnv) (m : Module) (input : Json) (vOut : Bool)
    (model : Option String) (evs : List Ev) :
    ∃ extra, (runTail env m input vOut model evs).1 = evs ++ extra ∧
      Ev.checkConfidence ∉ extra := by
  cases hllm : env.llm (build_prompt env m input) model with
  | error e =>
    exact ⟨[.invoke (build_prompt env m input)], by simp [runTail, hllm], by simp⟩
  | ok response =>
    cases hpr : parse_llm_response env.jsonLoads response with
    | error e =>
      exact ⟨[.invoke (build_prompt env m input)], by simp [runTail, hllm, hpr], by simp⟩
    | ok output =>
      cases vOut with
      | true =>
        cases hv : validate_data env.engine output m.output_schema "Output" with
        | nil =>
          exact ⟨[.invoke (build_prompt env m input), .parsed, .validateOutput],
            by simp [runTail, hllm, hpr, hv], by simp⟩
        | cons e es =>
          exact ⟨[.invoke (build_prompt env m input), .parsed],
            by simp [runTail, hllm, hpr, hv], by simp⟩
      | false =>
        exact ⟨[.invoke (build_prompt env m input), .parsed],
          by simp [runTail, hllm, hpr], by simp⟩

/-- The packaged pipeline (`runner.run_module`) never performs a
confidence comparison: no run's trace contains the confidence-check
event. -/
theorem run_module_no_confidence_event (env : RunEnv) (arg : String) (input : Json)
    (vI vO : Bool) (model : Option String) :
    Ev.checkConfidence ∉ (run_module env arg input vI vO model).1 := by
  cases hload : load_module env arg with
  | error e => simp [run_module, hload]
  | ok m =>
    cases vI with
    | true =>
      cases hv : validate_data env.engine input m.input_schema "Input" with
      | nil =>
        obtain ⟨extra, hex, hnc⟩ := runTail_trace_shape env m input vO model [.validateInput]
        have htr : (run_module env arg input true vO model).1 = [.validateInput] ++ extra := by
          simp only [run_module, hload, hv, if_pos]
          exact hex
        rw [htr]
        intro hmem
        rcases List.mem_append.mp hmem with hmem | hmem
        · simp at hmem
        · exact hnc hmem
      | cons e es => simp [run_module, hload, hv]
    | false =>
      obtain ⟨extra, hex, hnc⟩ := runTail_trace_shape env m input vO model []
      have htr : (run_module env arg input false vO model).1 = [] ++ extra := by
        simp only [run_module, hload, if_neg]
        exact hex
      rw [htr]
      intro hmem
      rcases List.mem_append.mp hmem with hmem | hmem
      · simp at hmem
      · exact hnc hmem

/-- C7 amended: in the runtime pipeline, a successful run whose output
carries a numeric `confidence` is flagged low-confidence exactly when
the confidence is below `constraints.confidence_thresholds.minimum_viable`
(the result is returned either way); the threshold defaults to `0.6`
when `confidence_thresholds` is unspecified; the packaged pipeline
(`runner.run_module`) performs no confidence comparison at all. -/
theorem c7_confidence_warning_not_failure :
    (∀ (env : RunEnv) (baseDir : Path) (mn : String) (input : Json) (validate : Bool)
       (tr : List Ev) (out : Json) (warn : Bool) (m : Module) (qc qm : ℚ),
       runtime_load_module env baseDir mn = .ok m →
       runtime_run_module env baseDir mn input validate = (tr, .ok (out, warn)) →
       out.getKey "confidence" = some (.num qc) →
       effMinViable m.constraints = .ok qm →
       warn = decide (qc < qm)) ∧
    (∀ kvs : List (String × Json),
       alistLookup kvs "confidence_thresholds" = none →
       effMinViable (.obj kvs) = .ok (3 / 5)) ∧
    (∀ (env : RunEnv) (arg : String) (input : Json) (vI vO : Bool)
       (model : Option String),
       Ev.checkConfidence ∉ (run_module env arg input vI vO model).1) := by
  refine ⟨?_, ?_, ?_⟩
  · intro env baseDir mn input validate tr out warn m qc qm hload hrun hconf heff
    exact runtime_run_confidence_inversion env baseDir mn input validate tr out warn
      m qc qm hload hrun hconf heff
  · intro kvs h
    simp only [effMinViable]
    rw [h]
    show Except.ok defaultMinViable = Except.ok (3 / 5)
    rw [show defaultMinViable = 3 / 5 by
      rw [defaultMinViable, Rat.mk'_eq_divInt, Rat.divInt_eq_div]; norm_num]
  · intro env arg input vI vO model
    exact run_module_no_confidence_event env arg input vI vO model

/-- The rational 0.5, as an explicit structure (so runs evaluate). -/
def halfQ : ℚ := ⟨1, 2, by norm_num, by norm_num⟩

/-- The rational 0.9, as an explicit structure. -/
def nineTenthsQ : ℚ := ⟨9, 10, by norm_num, by norm_num⟩

/-- Constraints document with `minimum_viable = 0.9`, for the C7
counterexample. -/
def constraintsW7 : Json :=
  .obj [("confidence_thresholds", .obj [("minimum_viable", .num nineTenthsQ)])]

/-- The model output with `confidence = 0.5`, for C7. -/
def outW7 : Json := .obj [("confidence", .num halfQ)]

/-- Concrete environment for the C7 counterexample: a packaged-pipeline
run whose output confidence 0.5 lies below the module's declared
minimum-viable threshold 0.9. -/
def envW7 : RunEnv where
  fs := mkFS [(["d"], [])]
    [(["d", "module.md"], "x"),
     (["d", "input.schema.json"], "{}"),
     (["d", "output.schema.json"], "{}"),
     (["d", "constraints.yaml"], "c"),
     (["d", "prompt.txt"], "p")]
  cwd := []
  home := ["h"]
  custom := []
  yamlParse := fun _ => .ok constraintsW7
  jsonLoads := fun _ => .ok outW7
  yamlDump := fun _ => ""
  jsonDumps := fun _ => ""
  engine := fun _ _ => .ok
  llm := fun _ _ => .ok "resp"

/-- The module record the C7 counterexample run loads. -/
def mW7 : Module where
  name := "d"
  path := ["d"]
  metadata := .obj []
  input_schema := outW7
  output_schema := outW7
  constraints := constraintsW7
  prompt := "p"

/-- The assembled prompt of the C7 counterexample run. -/
def promptW7 : String := build_prompt envW7 mW7 (.obj [])

/-- C7 counterexample: a packaged-pipeline run returns an output whose
confidence 0.5 is below the module's minimum-viable threshold 0.9, yet
the run succeeds with no confidence comparison anywhere in its trace and
no warning of any kind — the claimed comparison against
`constraints.confidence_thresholds.minimum_viable` does not happen in
this pipeline. -/
theorem c7_packaged_pipeline_never_compares_confidence :
    run_module envW7 "/d" (.obj []) true true none =
      ([.validateInput, .invoke promptW7, .parsed, .validateOutput], .ok outW7) ∧
    outW7.getKey "confidence" = some (.num halfQ) ∧
    effMinViable mW7.constraints = .ok nineTenthsQ ∧
    halfQ < nineTenthsQ ∧ halfQ = 1 / 2 ∧ nineTenthsQ = 9 / 10 ∧
    Ev.checkConfidence ∉
      [Ev.validateInput, .invoke promptW7, .parsed, .validateOutput] := by
  refine ⟨rfl, rfl, rfl, by decide, ?_, ?_, by simp⟩
  · rw [halfQ, Rat.mk'_eq_divInt, Rat.divInt_eq_div]
    norm_num
  · rw [nineTenthsQ, Rat.mk'_eq_divInt, Rat.divInt_eq_div]
    norm_num

/-- Concrete runtime-pipeline environment for the C7 witness: output
confidence 0.5, no declared thresholds (so the 0.6 default applies). -/
def envW7r : RunEnv where
  fs := mkFS [(["r", "cognitive", "modules", "m"], [])]
    [(["r", "cognitive", "modules", "m", "module.md"], "x"),
     (["r", "cognitive", "modules", "m", "input.schema.json"], "{}"),
     (["r", "cognitive", "modules", "m", "output.schema.json"], "{}"),
     (["r", "cognitive", "modules", "m", "constraints.yaml"], "c"),
     (["r", "cognitive", "modules", "m", "prompt.txt"], "p")]
  cwd := []
  home := ["h"]
  custom := []
  yamlParse := fun _ => .ok (.obj [])
  jsonLoads := fun _ => .ok outW7
  yamlDump := fun _ => ""
  jsonDumps := fun _ => ""
  engine := fun _ _ => .ok
  llm := fun _ _ => .ok "resp"

/-- The module record of the C7 witness run. -/
def mW7r : Module where
  name := "m"
  path := ["r", "cognitive", "modules", "m"]
  metadata := .obj []
  input_schema := outW7
  output_schema := outW7
  constraints := .obj []
  prompt := "p"

/-- The trace of the C7 witness run. -/
def trW7r : List Ev :=
  [.validateInput, .invoke (runtime_build_prompt envW7r mW7r (.obj [])), .parsed,
   .validateOutput, .checkConfidence]

/-- C7 witness: the concrete runtime run succeeds, returns the output,
and is flagged low-confidence because 0.5 is below the 0.6 default. -/
theorem c7_confidence_warning_not_failure_witness :
    runtime_run_module envW7r ["r"] "m" (.obj []) true = (trW7r, .ok (outW7, true)) ∧
    (true = decide (halfQ < defaultMinViable)) ∧
    halfQ = 1 / 2 ∧ defaultMinViable = 3 / 5 :=
  ⟨rfl,
   c7_confidence_warning_not_failure.1 envW7r ["r"] "m" (.obj []) true trW7r outW7
     true mW7r halfQ defaultMinViable rfl rfl rfl rfl,
   by rw [halfQ, Rat.mk'_eq_divInt, Rat.divInt_eq_div]; norm_num,
   by rw [defaultMinViable, Rat.mk'_eq_divInt, Rat.divInt_eq_div]; norm_num⟩

/-! ## Claim C6: fence stripping round-trip

"Valid JSON" is formalised by a grammar predicate `JGram` covering (a
superset of) the texts the external `json.loads` accepts: its essential
facts here are that string literals contain no raw newline (strict JSON
rejects unescaped control characters) and that backticks can occur only
inside string literals.  From this we derive that no line of a valid
JSON text strips to a bare fence, which is exactly what the
fence-stripping code depends on. -/

/-- Characters that may occur in a (generously over-approximated) JSON
number token. -/
def numChar (c : Char) : Bool :=
  c.isDigit || c = '-' || c = '+' || c = '.' || c = 'e' || c = 'E'

/-- Over-approximation of JSON number tokens. -/
def numOk (cs : List Char) : Bool :=
  match cs with
  | [] => false
  | c :: _ => (c.isDigit || c = '-') && cs.all numChar

/-- Over-approximation of JSON string-literal bodies: no raw newline
(strict `json.loads` rejects unescaped control characters). -/
def strBodyOk (b : List Char) : Bool := b.all (fun c => c != '\n')

/-- JSON insignificant whitespace. -/
def jsonWs (c : Char) : Bool := c = ' ' || c = '\t' || c = '\n' || c = '\r'

/-- A run of JSON whitespace. -/
def jsonWsOnly (w : List Char) : Bool := w.all jsonWs

/-- A JSON string literal: quote, body, quote. -/
def strToken (b : List Char) : List Char := dquote :: b ++ [dquote]

/-- The opening-brace character. -/
def lbrace : Char := Char.ofNat 123

/-- The closing-brace character. -/
def rbrace : Char := Char.ofNat 125

/-- Grammar nonterminals: a value, an array-element sequence, an object
member sequence. -/
inductive JKind where
  | val : JKind
  | seq : JKind
  | members : JKind

/-- The JSON texts (without surrounding whitespace at the top level),
as accepted by `json.loads` — including its Python extensions `NaN`,
`Infinity` and `-Infinity`. -/
inductive JGram : JKind → List Char → Prop where
  | jnull : JGram .val ("null".toList)
  | jtrue : JGram .val ("true".toList)
  | jfalse : JGram .val ("false".toList)
  | jnan : JGram .val ("NaN".toList)
  | jinf : JGram .val ("Infinity".toList)
  | jninf : JGram .val ("-Infinity".toList)
  | jnum : ∀ cs, numOk cs = true → JGram .val cs
  | jstr : ∀ b, strBodyOk b = true → JGram .val (strToken b)
  | jarrE : ∀ w, jsonWsOnly w = true → JGram .val ('[' :: (w ++ [']']))
  | jarr : ∀ inner, JGram .seq inner → JGram .val ('[' :: (inner ++ [']']))
  | jobjE : ∀ w, jsonWsOnly w = true → JGram .val (lbrace :: (w ++ [rbrace]))
  | jobj : ∀ inner, JGram .members inner → JGram .val (lbrace :: (inner ++ [rbrace]))
  | seqOne : ∀ w1 v w2, jsonWsOnly w1 = true → JGram .val v → jsonWsOnly w2 = true →
      JGram .seq (w1 ++ (v ++ w2))
  | seqCons : ∀ w1 v w2 rest, jsonWsOnly w1 = true → JGram .val v →
      jsonWsOnly w2 = true → JGram .seq rest →
      JGram .seq (w1 ++ (v ++ (w2 ++ (',' :: rest))))
  | memOne : ∀ w1 b w2 w3 v w4, jsonWsOnly w1 = true → strBodyOk b = true →
      jsonWsOnly w2 = true → jsonWsOnly w3 = true → JGram .val v →
      jsonWsOnly w4 = true →
      JGram .members (w1 ++ (strToken b ++ (w2 ++ (':' :: (w3 ++ (v ++ w4))))))
  | memCons : ∀ w1 b w2 w3 v w4 rest, jsonWsOnly w1 = true → strBodyOk b = true →
      jsonWsOnly w2 = true → jsonWsOnly w3 = true → JGram .val v →
      jsonWsOnly w4 = true → JGram .members rest →
      JGram .members
        (w1 ++ (strToken b ++ (w2 ++ (':' :: (w3 ++ (v ++ (w4 ++ (',' :: rest))))))))

/-- Line scanner: walks the text keeping, per line, whether a quote has
been seen since the last newline; a backtick is accepted only when a
quote came first on its line. -/
def lineScan (s : Bool) : List Char → Bool
  | [] => true
  | c :: rest =>
    if c = '\n' then lineScan false rest
    else if c = dquote then lineScan true rest
    else if c = btick then s && lineScan s rest
    else lineScan s rest

/-- The scanner's state after a text. -/
def lineState (s : Bool) : List Char → Bool
  | [] => s
  | c :: rest =>
    lineState (if c = '\n' then false else if c = dquote then true else s) rest

/-- The quote character is not a newline. -/
theorem dquote_ne_newline : ¬ dquote = '\n' := by decide

/-- The backtick character is not a newline. -/
theorem btick_ne_newline : ¬ btick = '\n' := by decide

/-- The backtick character is not a quote. -/
theorem btick_ne_dquote : ¬ btick = dquote := by decide

/-- The scanner splits over concatenation. -/
theorem lineScan_append (a : List Char) :
    ∀ (b : List Char) (s : Bool),
      lineScan s (a ++ b) = (lineScan s a && lineScan (lineState s a) b) := by
  induction a with
  | nil => intro b s; simp [lineScan, lineState]
  | cons c a ih =>
    intro b s
    by_cases h1 : c = '\n'
    · simp [lineScan, lineState, h1, ih]
    · by_cases h2 : c = dquote
      · simp [lineScan, lineState, h1, h2, ih, dquote_ne_newline]
      · by_cases h3 : c = btick
        · simp [lineScan, lineState, h1, h2, h3, ih, Bool.and_assoc,
            btick_ne_newline, btick_ne_dquote]
        · simp [lineScan, lineState, h1, h2, h3, ih]

/-- The scanner state splits over concatenation. -/
theorem lineState_append (a : List Char) :
    ∀ (b : List Char) (s : Bool), lineState s (a ++ b) = lineState (lineState s a) b := by
  induction a with
  | nil => intro b s; simp [lineState]
  | cons c a ih => intro b s; simp [lineState, ih]

/-- Texts accepted by the scanner from every starting state. -/
def ScanAll (cs : List Char) : Prop := ∀ s, lineScan s cs = true

/-- Scan-accepted texts concatenate. -/
theorem scanAll_append {a b : List Char} (ha : ScanAll a) (hb : ScanAll b) :
    ScanAll (a ++ b) := by
  intro s
  rw [lineScan_append]
  rw [ha s, hb (lineState s a)]
  rfl

/-- A non-backtick character can always be prepended. -/
theorem scanAll_cons {rest : List Char} (c : Char) (hc : c ≠ btick)
    (h : ScanAll rest) : ScanAll (c :: rest) := by
  intro s
  by_cases h1 : c = '\n'
  · simp [lineScan, h1, h false]
  · by_cases h2 : c = dquote
    · simp [lineScan, h1, h2, h true, dquote_ne_newline]
    · simp [lineScan, h1, h2, hc, h s]

/-- The empty text is accepted. -/
theorem scanAll_nil : ScanAll [] := fun _ => rfl

/-- A backtick-free text is accepted. -/
theorem scanAll_of_no_btick {cs : List Char} (h : btick ∉ cs) : ScanAll cs := by
  induction cs with
  | nil => exact scanAll_nil
  | cons c rest ih =>
    exact scanAll_cons c (fun hc => h (by simp [hc]))
      (ih (fun hm => h (by simp [hm])))

/-- Whitespace characters are not backticks. -/
theorem jsonWs_ne_btick {c : Char} (h : jsonWs c = true) : c ≠ btick := by
  simp only [jsonWs, Bool.or_eq_true, decide_eq_true_eq] at h
  rcases h with ((h | h) | h) | h <;> subst h <;> decide

/-- A whitespace run is accepted. -/
theorem scanAll_ws {w : List Char} (h : jsonWsOnly w = true) : ScanAll w := by
  refine scanAll_of_no_btick (fun hm => ?_)
  have := List.all_eq_true.mp h btick hm
  exact absurd this (by decide)

/-- Number characters are not backticks. -/
theorem numChar_ne_btick {c : Char} (h : numChar c = true) : c ≠ btick := by
  intro hc
  subst hc
  exact absurd h (by decide)

/-- A number token is accepted. -/
theorem scanAll_num {cs : List Char} (h : numOk cs = true) : ScanAll cs := by
  refine scanAll_of_no_btick (fun hm => ?_)
  cases cs with
  | nil => simp at hm
  | cons c rest =>
    simp only [numOk, Bool.and_eq_true] at h
    exact absurd (List.all_eq_true.mp h.2 btick hm) (by decide)

/-- Inside a newline-free stretch, the quote-seen state stays set and
everything (backticks included) is accepted. -/
theorem scan_after_quote {b : List Char} (h : '\n' ∉ b) :
    lineScan true b = true ∧ lineState true b = true := by
  induction b with
  | nil => exact ⟨rfl, rfl⟩
  | cons c rest ih =>
    have hc : ¬ c = '\n' := fun hc => h (by simp [hc])
    have ih' := ih (fun hm => h (by simp [hm]))
    by_cases h2 : c = dquote
    · constructor
      · simpa [lineScan, hc, h2] using ih'.1
      · simpa [lineState, hc, h2] using ih'.2
    · by_cases h3 : c = btick
      · constructor
        · simpa [lineScan, hc, h2, h3] using ih'.1
        · simpa [lineState, hc, h2, h3] using ih'.2
      · constructor
        · simpa [lineScan, hc, h2, h3] using ih'.1
        · simpa [lineState, hc, h2, h3] using ih'.2

/-- A string literal is accepted from every state. -/
theorem scanAll_strToken {b : List Char} (h : strBodyOk b = true) :
    ScanAll (strToken b) := by
  intro s
  have hb : '\n' ∉ b := by
    intro hm
    have := List.all_eq_true.mp h _ hm
    simp at this
  have hstep : lineScan s (strToken b) = lineScan true (b ++ [dquote]) := by
    simp [strToken, lineScan, dquote_ne_newline]
  rw [hstep, lineScan_append]
  obtain ⟨hs1, hs2⟩ := scan_after_quote hb
  rw [hs1, hs2]
  simp [lineScan]

/-- Every text of the JSON grammar passes the line scanner from every
starting state: backticks occur only inside string literals, where the
opening quote precedes them on the same line. -/
theorem jgram_scanAll {k : JKind} {cs : List Char} (h : JGram k cs) : ScanAll cs := by
  induction h with
  | jnull => intro s; cases s <;> decide
  | jtrue => intro s; cases s <;> decide
  | jfalse => intro s; cases s <;> decide
  | jnan => intro s; cases s <;> decide
  | jinf => intro s; cases s <;> decide
  | jninf => intro s; cases s <;> decide
  | jnum cs hnum => exact scanAll_num hnum
  | jstr b hb => exact scanAll_strToken hb
  | jarrE w hw =>
    exact scanAll_cons '[' (by decide)
      (scanAll_append (scanAll_ws hw) (scanAll_cons ']' (by decide) scanAll_nil))
  | jarr inner _ ih =>
    exact scanAll_cons '[' (by decide)
      (scanAll_append ih (scanAll_cons ']' (by decide) scanAll_nil))
  | jobjE w hw =>
    exact scanAll_cons lbrace (by decide)
      (scanAll_append (scanAll_ws hw) (scanAll_cons rbrace (by decide) scanAll_nil))
  | jobj inner _ ih =>
    exact scanAll_cons lbrace (by decide)
      (scanAll_append ih (scanAll_cons rbrace (by decide) scanAll_nil))
  | seqOne w1 v w2 h1 _ h3 ih =>
    exact scanAll_append (scanAll_ws h1) (scanAll_append ih (scanAll_ws h3))
  | seqCons w1 v w2 rest h1 _ h3 _ ihv ihr =>
    exact scanAll_append (scanAll_ws h1)
      (scanAll_append ihv
        (scanAll_append (scanAll_ws h3) (scanAll_cons ',' (by decide) ihr)))
  | memOne w1 b w2 w3 v w4 h1 hb h2 h3 _ h4 ihv =>
    exact scanAll_append (scanAll_ws h1)
      (scanAll_append (scanAll_strToken hb)
        (scanAll_append (scanAll_ws h2)
          (scanAll_cons ':' (by decide)
            (scanAll_append (scanAll_ws h3) (scanAll_append ihv (scanAll_ws h4))))))
  | memCons w1 b w2 w3 v w4 rest h1 hb h2 h3 _ h4 _ ihv ihr =>
    exact scanAll_append (scanAll_ws h1)
      (scanAll_append (scanAll_strToken hb)
        (scanAll_append (scanAll_ws h2)
          (scanAll_cons ':' (by decide)
            (scanAll_append (scanAll_ws h3)
              (scanAll_append ihv
                (scanAll_append (scanAll_ws h4)
                  (scanAll_cons ',' (by decide) ihr)))))))

/-- `splitOnChar` always returns at least one field. -/
theorem splitOnChar_ne_nil (sep : Char) (cs : List Char) :
    splitOnChar sep cs ≠ [] := by
  induction cs with
  | nil => simp [splitOnChar]
  | cons c rest ih =>
    by_cases hc : c = sep
    · simp [splitOnChar, hc]
    · cases hsp : splitOnChar sep rest with
      | nil => exact absurd hsp ih
      | cons l ls => simp [splitOnChar, hc, hsp]

/-- A separator closes the current field: splitting distributes over it. -/
theorem splitOnChar_append_cons (sep : Char) (x : List Char) :
    ∀ y, splitOnChar sep (x ++ sep :: y) = splitOnChar sep x ++ splitOnChar sep y := by
  induction x with
  | nil => intro y; simp [splitOnChar]
  | cons c x ih =>
    intro y
    by_cases hc : c = sep
    · simp only [List.cons_append, splitOnChar, if_pos hc, List.append_eq, ih y,
        List.nil_append]
    · cases hsp : splitOnChar sep x with
      | nil => exact absurd hsp (splitOnChar_ne_nil sep x)
      | cons h t =>
        have hsp2 := ih y
        rw [hsp] at hsp2
        simp only [List.cons_append, splitOnChar, if_neg hc, List.append_eq, hsp2, hsp]

/-- A separator-free text is a single field. -/
theorem splitOnChar_of_not_mem (sep : Char) {cs : List Char} (h : sep ∉ cs) :
    splitOnChar sep cs = [cs] := by
  induction cs with
  | nil => rfl
  | cons c rest ih =>
    have hc : ¬ c = sep := fun hc => h (by simp [hc])
    have ih' := ih (fun hm => h (by simp [hm]))
    simp [splitOnChar, hc, ih']

/-- Fields contain no separator. -/
theorem mem_splitOnChar_not_mem (sep : Char) :
    ∀ (cs : List Char), ∀ l ∈ splitOnChar sep cs, sep ∉ l := by
  intro cs
  induction cs with
  | nil =>
    intro l hl
    simp [splitOnChar] at hl
    simp [hl]
  | cons c rest ih =>
    intro l hl
    by_cases hc : c = sep
    · simp only [splitOnChar, if_pos hc] at hl
      rcases List.mem_cons.mp hl with rfl | hl
      · simp
      · exact ih l hl
    · cases hsp : splitOnChar sep rest with
      | nil => exact absurd hsp (splitOnChar_ne_nil sep rest)
      | cons h t =>
        simp only [splitOnChar, if_neg hc, hsp] at hl
        rcases List.mem_cons.mp hl with rfl | hl
        · intro hm
          rcases List.mem_cons.mp hm with rfl | hm
          · exact hc rfl
          · exact ih h (by rw [hsp]; simp) hm
        · exact ih l (by rw [hsp]; simp [hl])

/-- Joining the fields with the separator restores the text. -/
theorem joinLines_splitOnChar : ∀ (t : List Char),
    joinLines (splitOnChar '\n' t) = t := by
  intro t
  induction t with
  | nil => rfl
  | cons c rest ih =>
    by_cases hc : c = '\n'
    · subst hc
      cases hsp : splitOnChar '\n' rest with
      | nil => exact absurd hsp (splitOnChar_ne_nil '\n' rest)
      | cons h ts =>
        rw [hsp] at ih
        simp only [splitOnChar, if_pos rfl, hsp, joinLines]
        rw [ih]
        rfl
    · cases hsp : splitOnChar '\n' rest with
      | nil => exact absurd hsp (splitOnChar_ne_nil '\n' rest)
      | cons h ts =>
        rw [hsp] at ih
        simp only [splitOnChar, if_neg hc, hsp]
        cases ts with
        | nil =>
          simp only [joinLines] at ih ⊢
          rw [ih]
        | cons t2 ts2 =>
          simp only [joinLines] at ih ⊢
          rw [List.cons_append, ih]

/-- The first field is a prefix of the text, up to a separator or the
end. -/
theorem splitOnChar_head_prefix (sep : Char) :
    ∀ (cs : List Char), ∃ post, cs = (splitOnChar sep cs).headD [] ++ post ∧
      (post = [] ∨ ∃ post2, post = sep :: post2) := by
  intro cs
  induction cs with
  | nil => exact ⟨[], rfl, Or.inl rfl⟩
  | cons c rest ih =>
    by_cases hc : c = sep
    · subst hc
      exact ⟨c :: rest, by simp [splitOnChar], Or.inr ⟨rest, rfl⟩⟩
    · cases hsp : splitOnChar sep rest with
      | nil => exact absurd hsp (splitOnChar_ne_nil sep rest)
      | cons h ts =>
        obtain ⟨post, hpost, hcase⟩ := ih
        rw [hsp] at hpost
        refine ⟨post, ?_, hcase⟩
        simp only [splitOnChar, if_neg hc, hsp, List.headD_cons] at hpost ⊢
        rw [List.cons_append, ← hpost]

/-- `pyStrip` decomposition: the original text is leading whitespace,
the stripped core, trailing whitespace. -/
theorem pyStrip_decomp (l : List Char) :
    ∃ w1 w2, l = w1 ++ pyStrip l ++ w2 ∧
      (∀ c ∈ w1, isPySpace c = true) ∧ (∀ c ∈ w2, isPySpace c = true) := by
  refine ⟨l.takeWhile isPySpace,
    ((l.dropWhile isPySpace).reverse.takeWhile isPySpace).reverse, ?_, ?_, ?_⟩
  · conv_lhs => rw [← List.takeWhile_append_dropWhile (p := isPySpace) (l := l)]
    rw [List.append_assoc]
    congr 1
    conv_lhs => rw [← List.reverse_reverse (l.dropWhile isPySpace)]
    conv_lhs =>
      rw [← List.takeWhile_append_dropWhile (p := isPySpace)
        (l := (l.dropWhile isPySpace).reverse)]
    rw [List.reverse_append]
    rfl
  · exact fun c hc => List.mem_takeWhile_imp hc
  · intro c hc
    rw [List.mem_reverse] at hc
    exact List.mem_takeWhile_imp hc

/-- Characters that are neither newlines nor quotes leave the scanner
state unchanged. -/
theorem lineState_plain {w : List Char}
    (h : ∀ c ∈ w, ¬ c = '\n' ∧ ¬ c = dquote) : ∀ s, lineState s w = s := by
  induction w with
  | nil => intro s; rfl
  | cons c rest ih =>
    intro s
    obtain ⟨h1, h2⟩ := h c (by simp)
    simp only [lineState, if_neg h1, if_neg h2]
    exact ih (fun c hc => h c (by simp [hc])) s

/-- A newline-free line that strips to a bare fence fails the scan from
the quote-unseen state. -/
theorem fence_line_scan_false {l : List Char} (hnl : '\n' ∉ l)
    (hstrip : pyStrip l = fence3) : lineScan false l = false := by
  obtain ⟨w1, w2, hdec, hw1, hw2⟩ := pyStrip_decomp l
  rw [hstrip] at hdec
  have hstate : lineState false w1 = false := by
    refine lineState_plain (fun c hc => ⟨?_, ?_⟩) false
    · intro hcnl
      exact hnl (by rw [hdec]; subst hcnl; simp [hc])
    · intro hcq
      have := hw1 c hc
      rw [hcq] at this
      exact absurd this (by decide)
  have hfence : lineScan false (fence3 ++ w2) = false := by
    have : fence3 ++ w2 = btick :: (btick :: btick :: [] ++ w2) := rfl
    rw [this]
    simp [lineScan, btick_ne_newline, btick_ne_dquote]
  rw [hdec, List.append_assoc, lineScan_append, hstate, hfence]
  simp

/-- The scanner state after anything ending in a newline is
quote-unseen. -/
theorem lineState_ends_newline (x : List Char) (s : Bool) :
    lineState s (x ++ ['\n']) = false := by
  rw [lineState_append]
  rfl

/-- No line of a scan-accepted text strips to a bare fence (bounded
recursion on the text length). -/
theorem no_fence_lines_aux : ∀ (n : Nat) (t : List Char), t.length ≤ n →
    lineScan false t = true → ∀ l ∈ splitOnChar '\n' t, pyStrip l ≠ fence3 := by
  intro n
  induction n with
  | zero =>
    intro t ht h l hl
    rw [List.length_eq_zero.mp (Nat.le_zero.mp ht)] at hl
    simp only [splitOnChar] at hl
    rcases List.mem_cons.mp hl with rfl | hl
    · decide
    · simp at hl
  | succ n ih =>
    intro t ht h l hl
    obtain ⟨post, hpost, hcase⟩ := splitOnChar_head_prefix '\n' t
    set hd := (splitOnChar '\n' t).headD [] with hhd
    have hhead_mem : hd ∈ splitOnChar '\n' t := by
      rw [hhd]
      cases hsp : splitOnChar '\n' t with
      | nil => exact absurd hsp (splitOnChar_ne_nil '\n' t)
      | cons a b => simp
    have hhead_nl : '\n' ∉ hd := mem_splitOnChar_not_mem '\n' t _ hhead_mem
    rcases hcase with rfl | ⟨post2, rfl⟩
    · -- the text is its own single line
      rw [List.append_nil] at hpost
      have hsingle : splitOnChar '\n' t = [t] := by
        refine splitOnChar_of_not_mem '\n' ?_
        rw [hpost]
        exact hhead_nl
      rw [hsingle] at hl
      rcases List.mem_cons.mp hl with rfl | hl
      · intro heq
        have hfail := fence_line_scan_false (by rw [hpost]; exact hhead_nl) heq
        rw [hfail] at h
        cases h
      · simp at hl
    · -- the text is head line ++ newline ++ rest
      have hsplit : splitOnChar '\n' t = hd :: splitOnChar '\n' post2 := by
        conv_lhs => rw [hpost]
        rw [splitOnChar_append_cons, splitOnChar_of_not_mem '\n' hhead_nl]
        rfl
      have hscan2 : lineScan false post2 = true := by
        have hre : t = (hd ++ ['\n']) ++ post2 := by
          rw [hpost, List.append_assoc]
          rfl
        have h' := h
        rw [hre, lineScan_append, lineState_ends_newline, Bool.and_eq_true] at h'
        exact h'.2
      rw [hsplit] at hl
      rcases List.mem_cons.mp hl with rfl | hl
      · intro heq
        have hscanHead : lineScan false hd = true := by
          have h' := h
          rw [hpost, lineScan_append, Bool.and_eq_true] at h'
          exact h'.1
        have hfail := fence_line_scan_false hhead_nl heq
        rw [hfail] at hscanHead
        cases hscanHead
      · have hlen : post2.length ≤ n := by
          have hlt := congrArg List.length hpost
          simp only [List.length_append, List.length_cons] at hlt
          omega
        exact ih post2 hlen hscan2 l hl

/-- No line of a valid JSON text strips to a bare fence. -/
theorem jgram_no_fence_lines {k : JKind} {t : List Char} (h : JGram k t) :
    ∀ l ∈ splitOnChar '\n' t, pyStrip l ≠ fence3 :=
  no_fence_lines_aux t.length t le_rfl (jgram_scanAll h false)

/-- Enumeration of Python whitespace characters. -/
theorem isPySpace_cases {c : Char} (h : isPySpace c = true) :
    c = ' ' ∨ c = '\t' ∨ c = '\n' ∨ c = '\r' ∨ c = Char.ofNat 11 ∨ c = Char.ofNat 12 := by
  simp only [isPySpace, Bool.or_eq_true, decide_eq_true_eq] at h
  tauto

/-- A digit or minus sign is neither whitespace nor a backtick. -/
theorem digit_or_minus_head {c : Char} (h : (c.isDigit || c = '-') = true) :
    ¬ isPySpace c = true ∧ c ≠ btick := by
  constructor
  · intro hsp
    rcases isPySpace_cases hsp with rfl | rfl | rfl | rfl | rfl | rfl <;>
      exact absurd h (by decide)
  · intro hc
    subst hc
    exact absurd h (by decide)

/-- A number character is not whitespace. -/
theorem numChar_not_space {c : Char} (h : numChar c = true) : ¬ isPySpace c = true := by
  intro hsp
  rcases isPySpace_cases hsp with rfl | rfl | rfl | rfl | rfl | rfl <;>
    exact absurd h (by decide)

/-- Every valid JSON text starts with a non-whitespace, non-backtick
character. -/
theorem jgram_val_head {cs : List Char} (h : JGram .val cs) :
    ∃ c rest, cs = c :: rest ∧ ¬ isPySpace c = true ∧ c ≠ btick := by
  cases h with
  | jnull => exact ⟨'n', _, rfl, by decide, by decide⟩
  | jtrue => exact ⟨'t', _, rfl, by decide, by decide⟩
  | jfalse => exact ⟨'f', _, rfl, by decide, by decide⟩
  | jnan => exact ⟨'N', _, rfl, by decide, by decide⟩
  | jinf => exact ⟨'I', _, rfl, by decide, by decide⟩
  | jninf => exact ⟨'-', _, rfl, by decide, by decide⟩
  | jnum cs hnum =>
    cases cs with
    | nil => exact absurd hnum (by decide)
    | cons c rest =>
      simp only [numOk, Bool.and_eq_true] at hnum
      obtain ⟨h1, h2⟩ := digit_or_minus_head hnum.1
      exact ⟨c, rest, rfl, h1, h2⟩
  | jstr b hb => exact ⟨dquote, _, rfl, by decide, by decide⟩
  | jarrE w hw => exact ⟨'[', _, rfl, by decide, by decide⟩
  | jarr inner hi => exact ⟨'[', _, rfl, by decide, by decide⟩
  | jobjE w hw => exact ⟨lbrace, _, rfl, by decide, by decide⟩
  | jobj inner hi => exact ⟨lbrace, _, rfl, by decide, by decide⟩

/-- Every valid JSON text ends with a non-whitespace character. -/
theorem jgram_val_last {cs : List Char} (h : JGram .val cs) :
    ∃ ini c, cs = ini ++ [c] ∧ ¬ isPySpace c = true := by
  cases h with
  | jnull => exact ⟨['n', 'u', 'l'], 'l', by decide, by decide⟩
  | jtrue => exact ⟨['t', 'r', 'u'], 'e', by decide, by decide⟩
  | jfalse => exact ⟨['f', 'a', 'l', 's'], 'e', by decide, by decide⟩
  | jnan => exact ⟨['N', 'a'], 'N', by decide, by decide⟩
  | jinf => exact ⟨['I', 'n', 'f', 'i', 'n', 'i', 't'], 'y', by decide, by decide⟩
  | jninf => exact ⟨['-', 'I', 'n', 'f', 'i', 'n', 'i', 't'], 'y', by decide, by decide⟩
  | jnum cs hnum =>
    have hne : cs ≠ [] := by
      intro hc
      rw [hc] at hnum
      exact absurd hnum (by decide)
    refine ⟨cs.dropLast, cs.getLast hne, (List.dropLast_append_getLast hne).symm, ?_⟩
    have hmem := List.getLast_mem hne
    cases cs with
    | nil => exact absurd rfl hne
    | cons c rest =>
      simp only [numOk, Bool.and_eq_true] at hnum
      exact numChar_not_space (List.all_eq_true.mp hnum.2 _ hmem)
  | jstr b hb => exact ⟨dquote :: b, dquote, rfl, by decide⟩
  | jarrE w hw => exact ⟨'[' :: w, ']', rfl, by decide⟩
  | jarr inner hi => exact ⟨'[' :: inner, ']', rfl, by decide⟩
  | jobjE w hw => exact ⟨lbrace :: w, rbrace, rfl, by decide⟩
  | jobj inner hi => exact ⟨lbrace :: inner, rbrace, rfl, by decide⟩

/-- A text with non-whitespace first and last characters strips to
itself. -/
theorem pyStrip_eq_self {cs : List Char} (c0 : Char) (rest : List Char)
    (h1 : cs = c0 :: rest) (h2 : ¬ isPySpace c0 = true)
    (ini : List Char) (c1 : Char) (h3 : cs = ini ++ [c1])
    (h4 : ¬ isPySpace c1 = true) : pyStrip cs = cs := by
  have hd : cs.dropWhile isPySpace = cs := by
    rw [h1, List.dropWhile_cons]
    simp [h2]
  have hr : cs.reverse.dropWhile isPySpace = cs.reverse := by
    rw [h3, List.reverse_append]
    simp only [List.reverse_singleton, List.singleton_append, List.dropWhile_cons]
    simp [h4]
  unfold pyStrip
  rw [hd, hr, List.reverse_reverse]

/-- `findIdx?` over a list whose only hit is the appended last
element. -/
theorem findIdx?_append_singleton {α : Type} (p : α → Bool) (xs : List α) (y : α)
    (hxs : ∀ x ∈ xs, p x = false) (hy : p y = true) :
    ∀ i, List.findIdx? p (xs ++ [y]) i = some (i + xs.length) := by
  induction xs with
  | nil => intro i; simp [List.findIdx?, hy]
  | cons x xs ih =>
    intro i
    have hx := hxs x (by simp)
    simp only [List.cons_append, List.findIdx?, hx, Bool.false_eq_true, if_false,
      List.append_eq]
    rw [ih (fun z hz => hxs z (by simp [hz])) (i + 1)]
    congr 1
    simp only [List.length_cons]
    omega

/-- C6: fence-stripping round-trip.  For every valid JSON text `t` and
every newline-free fence info string `lang`, the response
``` ```lang\n t \n``` ``` is stripped by `parse_llm_response` exactly to
`t`, so it parses to the same document as the unwrapped text; and an
unwrapped valid JSON response is passed through unchanged. -/
theorem c6_fence_strip_round_trip (t lang : List Char)
    (ht : JGram .val t) (hlang : '\n' ∉ lang) :
    parseLlmResponseText ((fence3 ++ lang) ++ '\n' :: (t ++ '\n' :: fence3)) = t ∧
    parseLlmResponseText t = t ∧
    (∀ jsonLoads : String → Except String Json,
      parse_llm_response jsonLoads
          (String.mk ((fence3 ++ lang) ++ '\n' :: (t ++ '\n' :: fence3))) =
        jsonLoads (String.mk t) ∧
      parse_llm_response jsonLoads (String.mk t) = jsonLoads (String.mk t)) := by
  have hstrip : pyStrip ((fence3 ++ lang) ++ '\n' :: (t ++ '\n' :: fence3)) =
      (fence3 ++ lang) ++ '\n' :: (t ++ '\n' :: fence3) := by
    refine pyStrip_eq_self btick
      ((btick :: btick :: [] ++ lang) ++ '\n' :: (t ++ '\n' :: fence3)) rfl (by decide)
      ((fence3 ++ lang) ++ '\n' :: (t ++ ['\n', btick, btick])) btick ?_ (by decide)
    rw [show ('\n' :: fence3 : List Char) = ['\n', btick, btick] ++ [btick] from rfl]
    simp [List.append_assoc]
  have hnl_head : '\n' ∉ fence3 ++ lang := by
    intro hm
    rcases List.mem_append.mp hm with hm | hm
    · exact absurd hm (by decide)
    · exact hlang hm
  have hl1 : splitOnChar '\n' ((fence3 ++ lang) ++ '\n' :: (t ++ '\n' :: fence3)) =
      (fence3 ++ lang) :: (splitOnChar '\n' t ++ [fence3]) := by
    rw [splitOnChar_append_cons, splitOnChar_of_not_mem '\n' hnl_head,
      splitOnChar_append_cons,
      splitOnChar_of_not_mem '\n' (show ('\n' : Char) ∉ fence3 by decide)]
    rfl
  have hpre : fence3.isPrefixOf ((fence3 ++ lang) ++ '\n' :: (t ++ '\n' :: fence3)) =
      true := by
    rw [List.isPrefixOf_iff_prefix, List.append_assoc]
    exact List.prefix_append fence3 _
  have hall : ∀ x ∈ splitOnChar '\n' t, decide (pyStrip x = fence3) = false :=
    fun x hx => decide_eq_false (jgram_no_fence_lines ht x hx)
  have hmain : parseLlmResponseText ((fence3 ++ lang) ++ '\n' :: (t ++ '\n' :: fence3)) =
      t := by
    unfold parseLlmResponseText
    rw [hstrip]
    simp only [stripFencedBlock, hpre, if_true, hl1]
    simp only [List.drop_succ_cons, List.drop_zero]
    rw [findIdx?_append_singleton _ _ _ hall (by decide) 0]
    simp only [Nat.zero_add, Nat.add_sub_cancel]
    rw [List.take_left]
    exact joinLines_splitOnChar t
  obtain ⟨c0, rest0, hh1, hh2, hh3⟩ := jgram_val_head ht
  obtain ⟨ini1, c1, hh4, hh5⟩ := jgram_val_last ht
  have hstript : pyStrip t = t := pyStrip_eq_self c0 rest0 hh1 hh2 ini1 c1 hh4 hh5
  have hpre2 : fence3.isPrefixOf t = false := by
    have hbeq : (btick == c0) = false := beq_eq_false_iff_ne.mpr (fun h => hh3 h.symm)
    have hunf : fence3.isPrefixOf (c0 :: rest0) =
        ((btick == c0) && ((btick :: btick :: []).isPrefixOf rest0)) := rfl
    rw [hh1, hunf, hbeq, Bool.false_and]
  have hunwrapped : parseLlmResponseText t = t := by
    unfold parseLlmResponseText
    rw [hstript]
    simp [stripFencedBlock, hpre2]
  refine ⟨hmain, hunwrapped, fun jsonLoads => ⟨?_, ?_⟩⟩
  · show jsonLoads (String.mk (parseLlmResponseText
      ((String.mk ((fence3 ++ lang) ++ '\n' :: (t ++ '\n' :: fence3))).toList))) =
      jsonLoads (String.mk t)
    rw [show (String.mk ((fence3 ++ lang) ++ '\n' :: (t ++ '\n' :: fence3))).toList =
      (fence3 ++ lang) ++ '\n' :: (t ++ '\n' :: fence3) from rfl, hmain]
  · show jsonLoads (String.mk (parseLlmResponseText ((String.mk t).toList))) =
      jsonLoads (String.mk t)
    rw [show (String.mk t).toList = t from rfl, hunwrapped]

/-- C6 witness: the concrete response ``` ```json\nnull\n``` ``` strips
to `null`, and the bare response `null` is passed through unchanged. -/
theorem c6_fence_strip_round_trip_witness :
    parseLlmResponseText ((fence3 ++ "json".toList) ++
      '\n' :: ("null".toList ++ '\n' :: fence3)) = "null".toList ∧
    parseLlmResponseText ("null".toList) = "null".toList :=
  ⟨(c6_fence_strip_round_trip ("null".toList) ("json".toList) JGram.jnull
      (by decide)).1,
   (c6_fence_strip_round_trip ("null".toList) ("json".toList) JGram.jnull
      (by decide)).2.1⟩

end Spec2Proof
